import Mathlib

/-
Verification of the workload-replication reconciler (cmd/wkldreplicate) of the
workloader CLI. The Go source is shallowly embedded: Go strings are Lean
`String`s, Go string pointers are `Option String` (nil prints as ""), Go maps
are association lists with overwrite-on-insert, and the fatal-error paths are
`Except String`. Definitions follow the source function `wkldReplicate` and its
helper `labelSlice`; parts of the repository that are referenced but whose code
is outside the embedded sources (the wkldexport header constants, the
wkldimport hostname-matched import collaborator, the fatal LogError utility)
are modelled from the specification and marked as such in their doc comments.
-/

set_option maxHeartbeats 1000000

namespace WkldRep

/-- Go utils.PtrToStr: a nil string pointer reads as the empty string. -/
def ptrToStr : Option String → String
  | none => ""
  | some s => s

/-- Leftmost occurrence of `sep` (a nonempty character list) in a character
list: returns the characters before the occurrence and the characters after
it, or `none` when `sep` does not occur. This is the search underlying Go's
strings.Contains and strings.Split. -/
def firstSplit (sep : List Char) : List Char → Option (List Char × List Char)
  | [] => none
  | c :: rest =>
    if sep.isPrefixOf (c :: rest) then some ([], (c :: rest).drop sep.length)
    else
      match firstSplit sep rest with
      | some (pre, post) => some (c :: pre, post)
      | none => none

/-- Go strings.Contains(s, sub) for nonempty sub. -/
def goContains (s sub : String) : Bool :=
  (firstSplit sub.data s.data).isSome

/-- Go strings.Split(s, sep)[0] for nonempty sep: the text before the first
occurrence of sep, or all of s when sep does not occur. -/
def goSplitHead (s sep : String) : String :=
  match firstSplit sep.data s.data with
  | some (pre, _) => String.mk pre
  | none => s

/-- Go strings.Replace(s, " ", "", -1): remove every space. -/
def removeSpaces (s : String) : String :=
  String.mk (s.data.filter (fun c => c != ' '))

/-- Helper for splitting on a single-character separator. -/
def splitCharAux (sep : Char) : List Char → List Char → List String
  | [], cur => [String.mk cur.reverse]
  | c :: rest, cur =>
    if c == sep then String.mk cur.reverse :: splitCharAux sep rest []
    else splitCharAux sep rest (c :: cur)

/-- Go strings.Split(s, sep) for a single-character separator. -/
def splitOnChar (sep : Char) (s : String) : List String :=
  splitCharAux sep s.data []

/-- Go strings.Join(xs, ";"). -/
def joinSemi (xs : List String) : String :=
  String.intercalate ";" xs

/-- The managed-workload provenance delimiter literal. -/
def msep : String := "-managed-wkld-"

/-- The unmanaged-workload provenance delimiter literal. -/
def usep : String := "-unmanaged-wkld-"

/-- illumioapi.Workload, restricted to the fields the reconciler reads or
writes. Label assignments are modelled as the resolved key/value pairs of the
workload (GetLabelByKey resolves a workload's label href through pce.Labels to
a key and value; the zero Label with empty key signals absence, modelled here
by a missing entry). -/
structure Workload where
  href : String
  hostname : String
  name : String
  description : String
  mode : String
  labels : List (String × String)
  interfaces : List String
  externalDataSet : Option String
  externalDataReference : Option String
deriving DecidableEq, Repr

/-- illumioapi.PCE, restricted to the fields the reconciler reads. -/
structure PCE where
  friendlyName : String
  fqdn : String
  versionMajor : Nat
  versionMinor : Nat
  workloadsSlice : List Workload
deriving DecidableEq, Repr

/-- illumioapi Workload.GetMode: the workload's management mode, either
"unmanaged" or a managed mode string. Modelled as a stored attribute. -/
def Workload.getMode (w : Workload) : String := w.mode

/-- illumioapi Workload.GetLabelByKey resolved to the value: the workload's
label value for key k, or absence. -/
def getLabelValueByKey (w : Workload) (k : String) : Option String :=
  w.labels.lookup k

/-- The replicateWkld pair of the source: the owning PCE and the workload. -/
structure ReplicateWkld where
  pce : PCE
  workload : Workload
deriving DecidableEq, Repr

/-- Source function labelSlice: one entry per label key, the workload's value
for that key or the literal sentinel "wkld-replicate-remove" when the workload
has no value for the key (label.Key == "" in the source). -/
def labelSlice (w : Workload) (pce : PCE) (labelKeys : List String) : List String :=
  labelKeys.map fun k =>
    match getLabelValueByKey w k with
    | none => "wkld-replicate-remove"
    | some v => v

/-- The source decides legacy label handling: any PCE with version below 22.5
forces the fixed legacy key set. -/
def legacyPCE (pces : List PCE) : Bool :=
  pces.any fun p =>
    p.versionMajor < 22 || (p.versionMajor == 22 && p.versionMinor < 5)

/-- Modelled from the spec: the wkldexport header constants (HeaderHostname,
HeaderDescription, HeaderInterfaces, HeaderExternalDataSet,
HeaderExternalDataReference) live outside the embedded sources; the spec gives
the upsert header row as source, hostname, description, the label keys,
interfaces, externalDataSet, externalDataReference. -/
def headerRow (labelKeys : List String) : List String :=
  ["source", "hostname", "description"] ++ labelKeys ++
    ["interfaces", "externalDataSet", "externalDataReference"]

/-- The delete-batch CSV header of the source. -/
def deleteHeader : List String := ["href", "pce_fqdn", "pce_name"]

/-- Modelled from the spec: wkldexport.InterfaceToString (outside the embedded
sources) renders a workload's interfaces as a list of descriptor strings; the
CSV cell is their semicolon join. The descriptors are carried verbatim in the
model. -/
def interfaceToString (w : Workload) : List String := w.interfaces

/-- Every CSV data row of the source has the shape
source, hostname, description, label values, interfaces, externalDataSet,
externalDataReference. -/
def mkRow (source hostname description : String) (labelVals : List String)
    (ifs eds edr : String) : List String :=
  [source, hostname, description] ++ labelVals ++ [ifs, eds, edr]

/-- Go map insertion: overwrite any existing binding of the key. -/
def mapInsert (m : List (String × ReplicateWkld)) (k : String) (v : ReplicateWkld) :
    List (String × ReplicateWkld) :=
  m.filter (fun e => e.1 != k) ++ [(k, v)]

/-- Key presence in the association-list model of a Go map. -/
def containsKey (m : List (String × ReplicateWkld)) (k : String) : Bool :=
  m.any (fun e => e.1 == k)

/-- The managed-workload stamping of the source (lines editing
w.ExternalDataSet and w.ExternalDataReference before the CSV row is built). -/
def managedStamp (p : PCE) (w : Workload) : Workload :=
  { w with externalDataSet := some "wkld-replicate",
           externalDataReference := some (p.fqdn ++ msep ++ w.href) }

/-- The CSV row the source emits for a managed workload during collection. -/
def managedRow (p : PCE) (labelKeys : List String) (w : Workload) : List String :=
  mkRow p.friendlyName (managedStamp p w).hostname ("managed ven on " ++ p.fqdn)
    (labelSlice (managedStamp p w) p labelKeys)
    (joinSemi (interfaceToString (managedStamp p w)))
    (ptrToStr (managedStamp p w).externalDataSet)
    (ptrToStr (managedStamp p w).externalDataReference)

/-- The collection-phase state: the managed and unmanaged maps keyed by
FQDN concatenated with hostname, the managed CSV data rows, and the FQDNs for
which the delete-href map has been initialised. -/
structure CollectSt where
  managed : List (String × ReplicateWkld)
  unmanaged : List (String × ReplicateWkld)
  importRows : List (List String)
  deleteHrefKeys : List String
deriving DecidableEq, Repr

def emptyCollect : CollectSt := ⟨[], [], [], []⟩

/-- One workload of the collection loop, total part: managed workloads are
inserted into the managed map (the map keeps the unstamped copy, since the
source stores the struct before editing the provenance fields) and produce a
CSV row; unmanaged workloads are only inserted into the unmanaged map. -/
def collectWorkloadT (p : PCE) (labelKeys : List String) (st : CollectSt)
    (w : Workload) : CollectSt :=
  let st :=
    if w.getMode != "unmanaged" then
      { st with managed := mapInsert st.managed (p.fqdn ++ w.hostname) ⟨p, w⟩,
                importRows := st.importRows ++ [managedRow p labelKeys w] }
    else st
  if w.getMode == "unmanaged" then
    { st with unmanaged := mapInsert st.unmanaged (p.fqdn ++ w.hostname) ⟨p, w⟩ }
  else st

/-- One workload of the collection loop: an empty hostname is a fatal error
(utils.LogError in the source), otherwise the total step. -/
def collectWorkload (p : PCE) (labelKeys : List String) (st : CollectSt)
    (w : Workload) : Except String CollectSt :=
  if w.hostname = "" then
    .error (p.fqdn ++ " - href: " ++ w.href ++ " - name: " ++ w.name ++
      " - wkld-replicate requires hostnames on all workloads. one option to quickly fix is to use wkld-export, edit the csv to have unique hostnames, and use wkld-import to apply.")
  else .ok (collectWorkloadT p labelKeys st w)

/-- One PCE of the collection loop, total part: a skip-source PCE is passed
over entirely; otherwise its delete-href slice is initialised and its
workloads are folded through the workload step. -/
def collectPCET (skip : List String) (labelKeys : List String) (st : CollectSt)
    (p : PCE) : CollectSt :=
  if skip.contains p.friendlyName then st
  else
    p.workloadsSlice.foldl (collectWorkloadT p labelKeys)
      { st with deleteHrefKeys := st.deleteHrefKeys ++ [p.fqdn] }

/-- One PCE of the collection loop with the fatal-hostname path. -/
def collectPCE (skip : List String) (labelKeys : List String) (st : CollectSt)
    (p : PCE) : Except String CollectSt :=
  if skip.contains p.friendlyName then .ok st
  else
    p.workloadsSlice.foldlM (collectWorkload p labelKeys)
      { st with deleteHrefKeys := st.deleteHrefKeys ++ [p.fqdn] }

/-- The whole collection phase, total part. -/
def collectAllT (pces : List PCE) (skip : List String) (labelKeys : List String) :
    CollectSt :=
  pces.foldl (collectPCET skip labelKeys) emptyCollect

/-- The whole collection phase with the fatal-hostname path. -/
def collectAll (pces : List PCE) (skip : List String) (labelKeys : List String) :
    Except String CollectSt :=
  pces.foldlM (collectPCE skip labelKeys) emptyCollect

/-- The provenance stamping of rule 1 of the unmanaged reconciliation: claim
an organically created unmanaged workload for its own instance. -/
def claimStamp (e : ReplicateWkld) : Workload :=
  { e.workload with
      externalDataSet := some "wkld-replicate",
      externalDataReference := some (e.pce.fqdn ++ usep ++ e.workload.href) }

/-- The CSV row the source emits for an unmanaged workload (rules 1 and 2 of
the unmanaged reconciliation), built from the possibly restamped copy w. -/
def unmanagedRow (e : ReplicateWkld) (labelKeys : List String) (w : Workload) :
    List String :=
  mkRow e.pce.friendlyName w.hostname ("unmanaged workload on " ++ e.pce.fqdn)
    (labelSlice w e.pce labelKeys) (joinSemi (interfaceToString w))
    (ptrToStr w.externalDataSet) (ptrToStr w.externalDataReference)

/-- The outcome of the unmanaged reconciliation for one map entry. -/
inductive UnmanagedAction where
  | upsert (row : List String)
  | delete (row : List String) (fqdn href : String)
  | keep
deriving DecidableEq, Repr

def UnmanagedAction.isDelete : UnmanagedAction → Bool
  | .delete _ _ _ => true
  | _ => false

/-- The unmanaged reconciliation of the source, one map entry, first match
wins: 1. not yet in the dataset: claim and upsert; 2. self-owned reference:
re-assert the upsert; 3. reference of a managed workload: delete when the
composite key is gone from the managed map; 4. reference of a foreign
unmanaged workload: delete when the composite key is gone from the unmanaged
map; otherwise keep. -/
def processUnmanaged (managedMap unmanagedMap : List (String × ReplicateWkld))
    (labelKeys : List String) (e : ReplicateWkld) : UnmanagedAction :=
  let w := e.workload
  let p := e.pce
  if ptrToStr w.externalDataSet ≠ "wkld-replicate" then
    .upsert (unmanagedRow e labelKeys (claimStamp e))
  else if p.fqdn = goSplitHead (ptrToStr w.externalDataReference) usep then
    .upsert (unmanagedRow e labelKeys w)
  else if goContains (ptrToStr w.externalDataReference) msep then
    if containsKey managedMap
        (goSplitHead (ptrToStr w.externalDataReference) msep ++ w.hostname) then
      .keep
    else .delete [w.href, p.fqdn, p.friendlyName] p.fqdn w.href
  else if goContains (ptrToStr w.externalDataReference) usep then
    if containsKey unmanagedMap
        (goSplitHead (ptrToStr w.externalDataReference) usep ++ w.hostname) then
      .keep
    else .delete [w.href, p.fqdn, p.friendlyName] p.fqdn w.href
  else .keep

/-- The accumulated output of a run: the import CSV (header first), the delete
CSV (header first), and the per-FQDN delete href map. -/
structure RunOutput where
  importCsv : List (List String)
  deleteCsv : List (List String)
  deleteHrefMap : List (String × List String)
deriving DecidableEq, Repr

/-- Go append on a map of slices: extend the binding, creating it if absent. -/
def hrefMapAppend (m : List (String × List String)) (k v : String) :
    List (String × List String) :=
  if (m.lookup k).isSome then
    m.map (fun e => if e.1 == k then (e.1, e.2 ++ [v]) else e)
  else m ++ [(k, [v])]

/-- One entry of the phase-2 loop applied to the accumulated output. -/
def phase2Step (managedMap unmanagedMap : List (String × ReplicateWkld))
    (labelKeys : List String) (acc : RunOutput) (e : ReplicateWkld) : RunOutput :=
  match processUnmanaged managedMap unmanagedMap labelKeys e with
  | .upsert row => { acc with importCsv := acc.importCsv ++ [row] }
  | .delete row fqdn href =>
      { acc with deleteCsv := acc.deleteCsv ++ [row],
                 deleteHrefMap := hrefMapAppend acc.deleteHrefMap fqdn href }
  | .keep => acc

/-- The reconciliation run on already-fetched instances, total part: collect,
then fold every unmanaged map entry through the phase-2 step. The initial
output carries the CSV headers, the managed rows of collection, and the
initialised (empty) delete href slices. -/
def runReconcileT (pces : List PCE) (skip : List String) (labelKeys : List String) :
    RunOutput :=
  let st := collectAllT pces skip labelKeys
  (st.unmanaged.map Prod.snd).foldl
    (phase2Step st.managed st.unmanaged labelKeys)
    ⟨headerRow labelKeys :: st.importRows, [deleteHeader],
      st.deleteHrefKeys.map (fun f => (f, []))⟩

/-- The reconciliation run with the fatal empty-hostname path of collection. -/
def runReconcile (pces : List PCE) (skip : List String) (labelKeys : List String) :
    Except String RunOutput :=
  (collectAll pces skip labelKeys).map fun st =>
    (st.unmanaged.map Prod.snd).foldl
      (phase2Step st.managed st.unmanaged labelKeys)
      ⟨headerRow labelKeys :: st.importRows, [deleteHeader],
        st.deleteHrefKeys.map (fun f => (f, []))⟩

/-- Hostname cell of a CSV data row. -/
def rowHost (row : List String) : String := row.getD 1 ""

/-- Description cell of a CSV data row. -/
def rowDescr (row : List String) : String := row.getD 2 ""

/-- Label-value cells of a CSV data row, one per label key. -/
def rowLabelVals (labelKeys : List String) (row : List String) : List String :=
  (row.drop 3).take labelKeys.length

/-- Interfaces cell of a CSV data row. -/
def rowIfs (labelKeys : List String) (row : List String) : String :=
  row.getD (labelKeys.length + 3) ""

/-- externalDataSet cell of a CSV data row. -/
def rowEds (labelKeys : List String) (row : List String) : String :=
  row.getD (labelKeys.length + 4) ""

/-- externalDataReference cell of a CSV data row. -/
def rowEdr (labelKeys : List String) (row : List String) : String :=
  row.getD (labelKeys.length + 5) ""

/-- Set a label assignment, replacing any previous value of the key. -/
def setLabel (ls : List (String × String)) (k v : String) : List (String × String) :=
  ls.filter (fun e => e.1 != k) ++ [(k, v)]

/-- Remove a label assignment. -/
def removeLabel (ls : List (String × String)) (k : String) : List (String × String) :=
  ls.filter (fun e => e.1 != k)

/-- Label update of one import row: the sentinel value clears the key, any
other value sets it. -/
def applyRowLabels (labelKeys : List String) (row : List String)
    (ls : List (String × String)) : List (String × String) :=
  (labelKeys.zip (rowLabelVals labelKeys row)).foldl
    (fun acc kv =>
      if kv.2 = "wkld-replicate-remove" then removeLabel acc kv.1
      else setLabel acc kv.1 kv.2) ls

/-- Modelled from the spec: a hostname-matched workload receives the row's
description, label updates (the sentinel clears a key) and provenance fields,
keeping href, hostname, mode and interfaces. -/
def importUpdate (labelKeys : List String) (row : List String) (w : Workload) :
    Workload :=
  { w with description := rowDescr row,
           labels := applyRowLabels labelKeys row w.labels,
           externalDataSet := some (rowEds labelKeys row),
           externalDataReference := some (rowEdr labelKeys row) }

/-- Modelled from the spec: a created proxy is unmanaged and carries the
row's hostname, description, labels, interfaces and provenance, with an href
assigned by the destination (the parameter freshHref). -/
def importCreate (labelKeys : List String) (freshHref : String → String → String)
    (fqdn : String) (row : List String) : Workload :=
  { href := freshHref fqdn (rowHost row),
    hostname := rowHost row,
    name := rowHost row,
    description := rowDescr row,
    mode := "unmanaged",
    labels := applyRowLabels labelKeys row [],
    interfaces := splitOnChar ';' (rowIfs labelKeys row),
    externalDataSet := some (rowEds labelKeys row),
    externalDataReference := some (rowEdr labelKeys row) }

/-- Modelled from the spec: wkldimport.ImportWkldsFromCSV (outside the
embedded sources) applies one upsert row to one instance under the
hostname-matched semantics: create if absent, update if present, identified
by hostname. -/
def importRowIntoPce (labelKeys : List String) (freshHref : String → String → String)
    (p : PCE) (row : List String) : PCE :=
  if p.workloadsSlice.any (fun w => w.hostname == rowHost row) then
    { p with workloadsSlice := p.workloadsSlice.map fun w =>
        if w.hostname == rowHost row then importUpdate labelKeys row w else w }
  else
    { p with workloadsSlice := p.workloadsSlice ++
        [importCreate labelKeys freshHref p.fqdn row] }

/-- The whole upsert batch applied to one instance, row by row. -/
def applyImport (labelKeys : List String) (freshHref : String → String → String)
    (rows : List (List String)) (p : PCE) : PCE :=
  rows.foldl (importRowIntoPce labelKeys freshHref) p

/-- The delete batch applied to one instance: every href scheduled for the
instance's FQDN disappears. -/
def applyDeletes (hrefMap : List (String × List String)) (p : PCE) : PCE :=
  { p with workloadsSlice := p.workloadsSlice.filter fun w =>
      !(((hrefMap.lookup p.fqdn).getD []).contains w.href) }

/-- The PCE-side state produced by a run: every included instance receives the
full upsert batch (the data rows of the import CSV) matched by hostname,
then its scheduled deletes. -/
def postRunState (labelKeys : List String) (freshHref : String → String → String)
    (out : RunOutput) (pces : List PCE) : List PCE :=
  pces.map fun p =>
    applyDeletes out.deleteHrefMap (applyImport labelKeys freshHref (out.importCsv.drop 1) p)

/-- The literal message the source passes to utils.LogError when a skip-source
name is not in the pce list; the %s verb is never formatted because LogError
takes the string as-is. -/
def skipSourceErrorMsg : String :=
  "%s is not in the pce list. skipped pces must also be in the pce list"

/-- The skip-source validation of the source: split the flag on commas after
removing spaces; any name absent from the pce-list names is a fatal
configuration error (utils.LogError) raised before any workload API call. -/
def validateSkipSources (skipSources : String) (pceNames : List String) :
    Except String (List String) :=
  if skipSources = "" then .ok []
  else
    (splitOnChar ',' (removeSpaces skipSources)).foldlM
      (fun acc name =>
        if pceNames.contains name then .ok (acc ++ [name])
        else .error skipSourceErrorMsg) []

/-- Go strings.ToLower, restricted to the characters of the prompt answer. -/
def goToLower (s : String) : String :=
  String.mk (s.data.map Char.toLower)

/-- The execution gate of the source: without --update-pce the run returns
after writing the files; with --update-pce and without --no-prompt the run
proceeds only when the lower-cased prompt answer is exactly "yes". -/
def mutationGate (updatePCE noPrompt : Bool) (answer : String) : Bool :=
  if !updatePCE then false
  else if updatePCE && !noPrompt then goToLower answer == "yes"
  else true

/-- The observable actions of the output and apply phases. -/
inductive Effect where
  | writeFile (fname : String) (rows : List (List String))
  | importRun (pceName pceFqdn : String) (file : List (List String))
  | deleteAttempt (pceFqdn href : String)
  | deleteSuccess (pceFqdn href : String) (status : Nat)
  | logFatal (msg : String)
deriving DecidableEq, Repr

/-- A PCE mutation: a workload import run or a delete API call. -/
def Effect.isMutation : Effect → Bool
  | .importRun _ _ _ => true
  | .deleteAttempt _ _ => true
  | .deleteSuccess _ _ _ => true
  | _ => false

def Effect.isWrite : Effect → Bool
  | .writeFile _ _ => true
  | _ => false

/-- The import CSV file name of the source: timestamped without an override,
prefixed with the override otherwise. -/
def importFileName (ts outputFileName : String) : String :=
  if outputFileName = "" then "workloader-wkld-replicate-wkld-import-" ++ ts ++ ".csv"
  else "wkld-import-" ++ outputFileName

/-- The delete CSV file name of the source. -/
def deleteFileName (ts outputFileName : String) : String :=
  if outputFileName = "" then "workloader-wkld-replicate-wkld-delete-" ++ ts ++ ".csv"
  else "wkld-delete-" ++ outputFileName

/-- The CSV writing of the source: each batch is written only when it holds at
least one data row beyond its header. -/
def writeEffects (out : RunOutput) (ts outputFileName : String) : List Effect :=
  (if out.importCsv.length > 1 then
    [Effect.writeFile (importFileName ts outputFileName) out.importCsv] else []) ++
  (if out.deleteCsv.length > 1 then
    [Effect.writeFile (deleteFileName ts outputFileName) out.deleteCsv] else [])

/-- The delete loop of the apply phase for one instance. Modelled from the
spec: utils.LogError (outside the embedded sources) is fatal and aborts the
whole run, as the spec states for the other call sites of LogError
(configuration and collection errors abort). Each href is attempted in order;
a failing DeleteHref call is logged through LogError and stops everything,
a successful call logs its status code and the loop continues. The Boolean
result reports whether the run was aborted. -/
def runDeletesForPce (api : String → String → Except String Nat)
    (fqdn : String) : List String → List Effect × Bool
  | [] => ([], false)
  | h :: rest =>
    match api fqdn h with
    | .error msg => ([Effect.deleteAttempt fqdn h, Effect.logFatal msg], true)
    | .ok code =>
      let r := runDeletesForPce api fqdn rest
      (Effect.deleteAttempt fqdn h :: Effect.deleteSuccess fqdn h code :: r.1, r.2)

/-- The apply phase of the source: for every included instance in order, run
the hostname-matched import of the upsert CSV when it has data rows, then the
delete API calls for the hrefs scheduled for this instance's FQDN when the
delete CSV has data rows; a fatal delete failure stops the remaining
instances. -/
def applyPhase (api : String → String → Except String Nat) (pces : List PCE)
    (out : RunOutput) : List Effect :=
  match pces with
  | [] => []
  | p :: rest =>
    let imp := if out.importCsv.length > 1 then
      [Effect.importRun p.friendlyName p.fqdn out.importCsv] else []
    if out.deleteCsv.length > 1 then
      let r := runDeletesForPce api p.fqdn ((out.deleteHrefMap.lookup p.fqdn).getD [])
      if r.2 then imp ++ r.1
      else imp ++ r.1 ++ applyPhase api rest out
    else imp ++ applyPhase api rest out

/-- The whole run after reconciliation: write the CSV files, then apply the
batches only when the execution gate passes. -/
def fullRunEffects (api : String → String → Except String Nat) (pces : List PCE)
    (skip : List String) (labelKeys : List String) (updatePCE noPrompt : Bool)
    (answer ts outputFileName : String) : Except String (List Effect) :=
  (runReconcile pces skip labelKeys).map fun out =>
    writeEffects out ts outputFileName ++
      (if mutationGate updatePCE noPrompt answer then applyPhase api pces out else [])

/-- The effects of a delete loop over hrefs that all succeed. -/
def deleteOkEffects (api : String → String → Except String Nat) (fqdn : String)
    (hrefs : List String) : List Effect :=
  hrefs.flatMap fun h =>
    match api fqdn h with
    | .ok code => [Effect.deleteAttempt fqdn h, Effect.deleteSuccess fqdn h code]
    | .error _ => []

/-- A delete API that always succeeds. -/
def okApi : String → String → Except String Nat := fun _ _ => .ok 204

/-- A delete API that fails on one particular href. -/
def failingApi : String → String → Except String Nat :=
  fun _ h => if h = "/w/d1" then .error "api error" else .ok 204

/-- The legacy fixed label key set. -/
def keys4 : List String := ["role", "app", "env", "loc"]

/-- A deterministic href assignment for workloads the import creates. -/
def freshEx : String → String → String := fun f h => f ++ "/umwl/" ++ h

/-- A stale proxy on instance A whose reference points at an unmanaged
workload of instance B. -/
def wkldStale : Workload :=
  { href := "/w/u1", hostname := "h1", name := "u1", description := "",
    mode := "unmanaged", labels := [], interfaces := ["eth0:10.0.0.1"],
    externalDataSet := some "wkld-replicate",
    externalDataReference := some "b.pce-unmanaged-wkld-/w/x" }

/-- An unmanaged workload on instance B that is itself a proxy of a managed
workload whose source has disappeared. -/
def wkldChain : Workload :=
  { href := "/w/x", hostname := "h1", name := "x", description := "",
    mode := "unmanaged", labels := [], interfaces := [],
    externalDataSet := some "wkld-replicate",
    externalDataReference := some "c.pce-managed-wkld-/w/y" }

def pceA : PCE :=
  { friendlyName := "A", fqdn := "a.pce", versionMajor := 21, versionMinor := 0,
    workloadsSlice := [wkldStale] }

def pceB : PCE :=
  { friendlyName := "B", fqdn := "b.pce", versionMajor := 21, versionMinor := 0,
    workloadsSlice := [wkldChain] }

/-- A managed workload for the well-behaved scenario. -/
def wkldManaged : Workload :=
  { href := "/w/m1", hostname := "hm", name := "m1", description := "",
    mode := "managed", labels := [("role", "web")],
    interfaces := ["eth0:10.0.0.9"], externalDataSet := none,
    externalDataReference := none }

/-- An organically created unmanaged workload, never replicated before. -/
def wkldOrganic : Workload :=
  { href := "/w/o1", hostname := "ho", name := "o1", description := "",
    mode := "unmanaged", labels := [("app", "erp")], interfaces := [],
    externalDataSet := none, externalDataReference := none }

def pceC : PCE :=
  { friendlyName := "C", fqdn := "c.pce", versionMajor := 22, versionMinor := 5,
    workloadsSlice := [wkldManaged, wkldOrganic] }

def pceD : PCE :=
  { friendlyName := "D", fqdn := "d.pce", versionMajor := 22, versionMinor := 5,
    workloadsSlice := [] }

/-- An instance named as a skip source in the C10 scenario. -/
def pceS : PCE :=
  { friendlyName := "S", fqdn := "s.pce", versionMajor := 22, versionMinor := 5,
    workloadsSlice := [wkldOrganic] }

/-- An instance with no workloads at all. -/
def pceEmpty : PCE :=
  { friendlyName := "A", fqdn := "a.pce", versionMajor := 21, versionMinor := 0,
    workloadsSlice := [] }

/- ------------------------------------------------------------------ -/
/- Generic helper lemmas. -/

theorem foldl_invariant {α β : Type} (P : β → Prop) (f : β → α → β)
    (l : List α) (b : β) (hb : P b)
    (hf : ∀ b a, P b → a ∈ l → P (f b a)) : P (l.foldl f b) := by
  induction l generalizing b with
  | nil => exact hb
  | cons a l ih =>
    exact ih (f b a) (hf b a hb (List.mem_cons_self a l))
      (fun b' a' hb' ha' => hf b' a' hb' (List.mem_cons_of_mem a ha'))

theorem foldlM_except_ok {α β : Type} (f : β → α → Except String β) (fT : β → α → β)
    (hf : ∀ st a out, f st a = .ok out → out = fT st a) :
    ∀ (l : List α) (st out : β), l.foldlM f st = .ok out → out = l.foldl fT st := by
  intro l
  induction l with
  | nil => intro st out h; simp only [List.foldlM_nil, pure] at h; cases h; rfl
  | cons a l ih =>
    intro st out h
    rw [List.foldlM_cons] at h
    cases hfa : f st a with
    | error e => rw [hfa] at h; simp [Bind.bind, Except.bind] at h
    | ok st' =>
      rw [hfa] at h
      simp only [Bind.bind, Except.bind] at h
      rw [List.foldl_cons, ← hf st a st' hfa]
      exact ih st' out h

theorem getD_append_shift (ls tail : List String) (n : Nat) :
    (ls ++ tail).getD (ls.length + n) "" = tail.getD n "" := by
  induction ls with
  | nil => simp
  | cons x ls ih =>
    have hlen : (x :: ls).length + n = (ls.length + n) + 1 := by
      simp only [List.length_cons]; omega
    rw [List.cons_append, hlen, List.getD_cons_succ]
    exact ih

/- ------------------------------------------------------------------ -/
/- Row shape lemmas. -/

theorem mkRow_length (s h d : String) (ls : List String) (i e r : String) :
    (mkRow s h d ls i e r).length = 3 + ls.length + 3 := by
  simp [mkRow, List.length_append]; omega

theorem mkRow_host (s h d : String) (ls : List String) (i e r : String) :
    rowHost (mkRow s h d ls i e r) = h := rfl

theorem mkRow_eds (s h d : String) (ls : List String) (i e r : String) :
    (mkRow s h d ls i e r).getD (ls.length + 4) "" = e := by
  have key := getD_append_shift [s, h, d] (ls ++ [i, e, r]) (ls.length + 1)
  have key2 := getD_append_shift ls [i, e, r] 1
  have hidx : [s, h, d].length + (ls.length + 1) = ls.length + 4 := by
    simp only [List.length_cons, List.length_nil]; omega
  rw [hidx] at key
  have hm : mkRow s h d ls i e r = [s, h, d] ++ (ls ++ [i, e, r]) := rfl
  rw [hm, key, key2]
  rfl

theorem mkRow_edr (s h d : String) (ls : List String) (i e r : String) :
    (mkRow s h d ls i e r).getD (ls.length + 5) "" = r := by
  have key := getD_append_shift [s, h, d] (ls ++ [i, e, r]) (ls.length + 2)
  have key2 := getD_append_shift ls [i, e, r] 2
  have hidx : [s, h, d].length + (ls.length + 2) = ls.length + 5 := by
    simp only [List.length_cons, List.length_nil]; omega
  rw [hidx] at key
  have hm : mkRow s h d ls i e r = [s, h, d] ++ (ls ++ [i, e, r]) := rfl
  rw [hm, key, key2]
  rfl

theorem labelSlice_length (w : Workload) (p : PCE) (labelKeys : List String) :
    (labelSlice w p labelKeys).length = labelKeys.length := by
  simp [labelSlice]

theorem rowEds_mkRow (labelKeys : List String) (s h d : String) (ls : List String)
    (i e r : String) (hlen : ls.length = labelKeys.length) :
    rowEds labelKeys (mkRow s h d ls i e r) = e := by
  rw [rowEds, ← hlen]; exact mkRow_eds s h d ls i e r

theorem rowEdr_mkRow (labelKeys : List String) (s h d : String) (ls : List String)
    (i e r : String) (hlen : ls.length = labelKeys.length) :
    rowEdr labelKeys (mkRow s h d ls i e r) = r := by
  rw [rowEdr, ← hlen]; exact mkRow_edr s h d ls i e r

/- ------------------------------------------------------------------ -/
/- Map lemmas. -/

theorem mem_mapInsert {m : List (String × ReplicateWkld)} {k : String}
    {v : ReplicateWkld} {kv : String × ReplicateWkld}
    (h : kv ∈ mapInsert m k v) : kv ∈ m ∨ kv = (k, v) := by
  rcases List.mem_append.mp h with h' | h'
  · exact Or.inl (List.mem_filter.mp h').1
  · right; simpa using h'

theorem containsKey_iff (m : List (String × ReplicateWkld)) (k : String) :
    containsKey m k = true ↔ ∃ kv ∈ m, kv.1 = k := by
  simp [containsKey, List.any_eq_true]

theorem containsKey_mapInsert_iff (m : List (String × ReplicateWkld)) (k : String)
    (v : ReplicateWkld) (k' : String) :
    containsKey (mapInsert m k v) k' = true ↔ k' = k ∨ containsKey m k' = true := by
  simp only [containsKey, mapInsert, List.any_append, List.any_eq_true,
    List.mem_filter, Bool.or_eq_true, bne_iff_ne, beq_iff_eq]
  constructor
  · rintro (⟨kv, ⟨hm, _⟩, hk⟩ | h)
    · exact Or.inr ⟨kv, hm, hk⟩
    · simp at h; exact Or.inl h.symm
  · rintro (h | ⟨kv, hm, hk⟩)
    · right; simp [h]
    · by_cases hkk : kv.1 = k
      · right; simp [hkk ▸ hk]
      · exact Or.inl ⟨kv, ⟨hm, hkk⟩, hk⟩

/- ------------------------------------------------------------------ -/
/- Totalization: a successful run computes the total reconciliation. -/

theorem collectWorkload_ok (p : PCE) (labelKeys : List String) (st : CollectSt)
    (w : Workload) (out : CollectSt)
    (h : collectWorkload p labelKeys st w = .ok out) :
    out = collectWorkloadT p labelKeys st w := by
  unfold collectWorkload at h
  split at h
  · cases h
  · cases h; rfl

theorem collectPCE_ok (skip : List String) (labelKeys : List String) (st : CollectSt)
    (p : PCE) (out : CollectSt)
    (h : collectPCE skip labelKeys st p = .ok out) :
    out = collectPCET skip labelKeys st p := by
  unfold collectPCE at h
  unfold collectPCET
  by_cases hs : skip.contains p.friendlyName = true
  · rw [if_pos hs] at h
    rw [if_pos hs]
    cases h; rfl
  · rw [if_neg hs] at h
    rw [if_neg hs]
    exact foldlM_except_ok (collectWorkload p labelKeys) (collectWorkloadT p labelKeys)
      (fun st' a out' => collectWorkload_ok p labelKeys st' a out') _ _ _ h

theorem collectAll_ok (pces : List PCE) (skip : List String)
    (labelKeys : List String) (out : CollectSt)
    (h : collectAll pces skip labelKeys = .ok out) :
    out = collectAllT pces skip labelKeys := by
  exact foldlM_except_ok (collectPCE skip labelKeys) (collectPCET skip labelKeys)
    (fun st p out' => collectPCE_ok skip labelKeys st p out') pces emptyCollect out h

theorem runReconcile_ok (pces : List PCE) (skip : List String)
    (labelKeys : List String) (out : RunOutput)
    (h : runReconcile pces skip labelKeys = .ok out) :
    out = runReconcileT pces skip labelKeys := by
  unfold runReconcile at h
  cases hc : collectAll pces skip labelKeys with
  | error e => rw [hc] at h; simp [Except.map] at h
  | ok st =>
    rw [hc] at h
    simp only [Except.map, Except.ok.injEq] at h
    rw [← h, collectAll_ok pces skip labelKeys st hc]
    rfl

/- ------------------------------------------------------------------ -/
/- Characterisation of the phase-2 decision. -/

theorem labelSlice_getD (w : Workload) (p : PCE) (labelKeys : List String)
    (i : Nat) (hi : i < labelKeys.length) :
    (labelSlice w p labelKeys).getD i "" =
      match getLabelValueByKey w (labelKeys.getD i "") with
      | none => "wkld-replicate-remove"
      | some v => v := by
  induction labelKeys generalizing i with
  | nil => simp at hi
  | cons k ks ih =>
    cases i with
    | zero => simp [labelSlice]
    | succ n =>
      have hn : n < ks.length := by simpa using hi
      simpa [labelSlice, List.getD_cons_succ] using ih n hn

theorem processUnmanaged_rule1 (mm um : List (String × ReplicateWkld))
    (labelKeys : List String) (e : ReplicateWkld)
    (h : ptrToStr e.workload.externalDataSet ≠ "wkld-replicate") :
    processUnmanaged mm um labelKeys e =
      .upsert (unmanagedRow e labelKeys (claimStamp e)) := by
  unfold processUnmanaged
  rw [if_pos h]

theorem processUnmanaged_rule2 (mm um : List (String × ReplicateWkld))
    (labelKeys : List String) (e : ReplicateWkld)
    (h1 : ptrToStr e.workload.externalDataSet = "wkld-replicate")
    (h2 : e.pce.fqdn = goSplitHead (ptrToStr e.workload.externalDataReference) usep) :
    processUnmanaged mm um labelKeys e =
      .upsert (unmanagedRow e labelKeys e.workload) := by
  unfold processUnmanaged
  rw [if_neg (not_not_intro h1), if_pos h2]

theorem processUnmanaged_rule3 (mm um : List (String × ReplicateWkld))
    (labelKeys : List String) (e : ReplicateWkld)
    (h1 : ptrToStr e.workload.externalDataSet = "wkld-replicate")
    (h2 : e.pce.fqdn ≠ goSplitHead (ptrToStr e.workload.externalDataReference) usep)
    (h3 : goContains (ptrToStr e.workload.externalDataReference) msep = true) :
    processUnmanaged mm um labelKeys e =
      (if containsKey mm
          (goSplitHead (ptrToStr e.workload.externalDataReference) msep ++
            e.workload.hostname) then
        UnmanagedAction.keep
      else
        UnmanagedAction.delete [e.workload.href, e.pce.fqdn, e.pce.friendlyName]
          e.pce.fqdn e.workload.href) := by
  unfold processUnmanaged
  rw [if_neg (not_not_intro h1), if_neg h2, if_pos h3]

theorem processUnmanaged_rule4 (mm um : List (String × ReplicateWkld))
    (labelKeys : List String) (e : ReplicateWkld)
    (h1 : ptrToStr e.workload.externalDataSet = "wkld-replicate")
    (h2 : e.pce.fqdn ≠ goSplitHead (ptrToStr e.workload.externalDataReference) usep)
    (h3 : goContains (ptrToStr e.workload.externalDataReference) msep = false)
    (h4 : goContains (ptrToStr e.workload.externalDataReference) usep = true) :
    processUnmanaged mm um labelKeys e =
      (if containsKey um
          (goSplitHead (ptrToStr e.workload.externalDataReference) usep ++
            e.workload.hostname) then
        UnmanagedAction.keep
      else
        UnmanagedAction.delete [e.workload.href, e.pce.fqdn, e.pce.friendlyName]
          e.pce.fqdn e.workload.href) := by
  unfold processUnmanaged
  rw [if_neg (not_not_intro h1), if_neg h2,
    if_neg (by simp [h3] : ¬ goContains (ptrToStr e.workload.externalDataReference) msep = true),
    if_pos h4]

theorem processUnmanaged_rule5 (mm um : List (String × ReplicateWkld))
    (labelKeys : List String) (e : ReplicateWkld)
    (h1 : ptrToStr e.workload.externalDataSet = "wkld-replicate")
    (h2 : e.pce.fqdn ≠ goSplitHead (ptrToStr e.workload.externalDataReference) usep)
    (h3 : goContains (ptrToStr e.workload.externalDataReference) msep = false)
    (h4 : goContains (ptrToStr e.workload.externalDataReference) usep = false) :
    processUnmanaged mm um labelKeys e = .keep := by
  unfold processUnmanaged
  rw [if_neg (not_not_intro h1), if_neg h2,
    if_neg (by simp [h3] : ¬ goContains (ptrToStr e.workload.externalDataReference) msep = true),
    if_neg (by simp [h4] : ¬ goContains (ptrToStr e.workload.externalDataReference) usep = true)]

theorem processUnmanaged_isDelete_iff (mm um : List (String × ReplicateWkld))
    (labelKeys : List String) (e : ReplicateWkld) :
    (processUnmanaged mm um labelKeys e).isDelete = true ↔
      ptrToStr e.workload.externalDataSet = "wkld-replicate" ∧
      e.pce.fqdn ≠ goSplitHead (ptrToStr e.workload.externalDataReference) usep ∧
      ((goContains (ptrToStr e.workload.externalDataReference) msep = true ∧
        containsKey mm
          (goSplitHead (ptrToStr e.workload.externalDataReference) msep ++
            e.workload.hostname) = false) ∨
       (goContains (ptrToStr e.workload.externalDataReference) msep = false ∧
        goContains (ptrToStr e.workload.externalDataReference) usep = true ∧
        containsKey um
          (goSplitHead (ptrToStr e.workload.externalDataReference) usep ++
            e.workload.hostname) = false)) := by
  by_cases h1 : ptrToStr e.workload.externalDataSet = "wkld-replicate"
  · by_cases h2 : e.pce.fqdn = goSplitHead (ptrToStr e.workload.externalDataReference) usep
    · rw [processUnmanaged_rule2 mm um labelKeys e h1 h2]
      simp [UnmanagedAction.isDelete, h1, h2]
    · by_cases h3 : goContains (ptrToStr e.workload.externalDataReference) msep = true
      · rw [processUnmanaged_rule3 mm um labelKeys e h1 h2 h3]
        by_cases hk : containsKey mm
            (goSplitHead (ptrToStr e.workload.externalDataReference) msep ++
              e.workload.hostname) = true
        · simp [hk, UnmanagedAction.isDelete, h1, h2, h3]
        · simp only [Bool.not_eq_true] at hk
          simp [hk, UnmanagedAction.isDelete, h1, h2, h3]
      · simp only [Bool.not_eq_true] at h3
        by_cases h4 : goContains (ptrToStr e.workload.externalDataReference) usep = true
        · rw [processUnmanaged_rule4 mm um labelKeys e h1 h2 h3 h4]
          by_cases hk : containsKey um
              (goSplitHead (ptrToStr e.workload.externalDataReference) usep ++
                e.workload.hostname) = true
          · simp [hk, UnmanagedAction.isDelete, h1, h2, h3, h4]
          · simp only [Bool.not_eq_true] at hk
            simp [hk, UnmanagedAction.isDelete, h1, h2, h3, h4]
        · simp only [Bool.not_eq_true] at h4
          rw [processUnmanaged_rule5 mm um labelKeys e h1 h2 h3 h4]
          simp [UnmanagedAction.isDelete, h3, h4]
  · rw [processUnmanaged_rule1 mm um labelKeys e h1]
    simp [UnmanagedAction.isDelete, h1]

/- ------------------------------------------------------------------ -/
/- C3. -/

/-- C3: for a collected unmanaged workload whose externalDataSet is not
"wkld-replicate", the reconciliation claims it: the phase-2 step schedules
exactly one upsert row for it — with externalDataSet column "wkld-replicate"
and externalDataReference column the concatenation of its own instance
address, "-unmanaged-wkld-" and its href — and schedules nothing else (no
delete row, no delete href). -/
theorem c3_new_unmanaged_claimed (mm um : List (String × ReplicateWkld))
    (labelKeys : List String) (e : ReplicateWkld)
    (h : ptrToStr e.workload.externalDataSet ≠ "wkld-replicate") :
    processUnmanaged mm um labelKeys e =
      .upsert (mkRow e.pce.friendlyName e.workload.hostname
        ("unmanaged workload on " ++ e.pce.fqdn)
        (labelSlice e.workload e.pce labelKeys)
        (joinSemi (interfaceToString e.workload))
        "wkld-replicate" (e.pce.fqdn ++ usep ++ e.workload.href)) ∧
    ∀ acc, phase2Step mm um labelKeys acc e =
      { acc with importCsv := acc.importCsv ++
          [mkRow e.pce.friendlyName e.workload.hostname
            ("unmanaged workload on " ++ e.pce.fqdn)
            (labelSlice e.workload e.pce labelKeys)
            (joinSemi (interfaceToString e.workload))
            "wkld-replicate" (e.pce.fqdn ++ usep ++ e.workload.href)] } := by
  have hrow : unmanagedRow e labelKeys (claimStamp e) =
      mkRow e.pce.friendlyName e.workload.hostname
        ("unmanaged workload on " ++ e.pce.fqdn)
        (labelSlice e.workload e.pce labelKeys)
        (joinSemi (interfaceToString e.workload))
        "wkld-replicate" (e.pce.fqdn ++ usep ++ e.workload.href) := rfl
  have hp := processUnmanaged_rule1 mm um labelKeys e h
  rw [hrow] at hp
  refine ⟨hp, fun acc => ?_⟩
  unfold phase2Step
  rw [hp]

/-- Witness for C3 at a concrete input: the organic workload of instance C is
claimed with the stamped provenance. -/
theorem c3_witness :
    ptrToStr wkldOrganic.externalDataSet ≠ "wkld-replicate" ∧
    processUnmanaged [] [] keys4 ⟨pceC, wkldOrganic⟩ =
      .upsert (mkRow "C" "ho" "unmanaged workload on c.pce"
        ["wkld-replicate-remove", "erp", "wkld-replicate-remove", "wkld-replicate-remove"]
        "" "wkld-replicate" "c.pce-unmanaged-wkld-/w/o1") :=
  ⟨by decide, by
    have h := (c3_new_unmanaged_claimed [] [] keys4 ⟨pceC, wkldOrganic⟩ (by decide)).1
    rw [h]
    rfl⟩

/- ------------------------------------------------------------------ -/
/- C1. -/

/-- C1: for a collected unmanaged workload already in the "wkld-replicate"
dataset, not self-owned (its reference before "-unmanaged-wkld-" differs from
its own instance address) and whose reference contains "-managed-wkld-": when
the composite key — the text of the reference before "-managed-wkld-"
concatenated with the workload's hostname — is absent from the managed map,
the phase-2 step schedules a delete of the workload's href on its own
instance; when the key is present, it schedules nothing at all. -/
theorem c1_managed_proxy_delete (mm um : List (String × ReplicateWkld))
    (labelKeys : List String) (e : ReplicateWkld)
    (h1 : ptrToStr e.workload.externalDataSet = "wkld-replicate")
    (h2 : e.pce.fqdn ≠ goSplitHead (ptrToStr e.workload.externalDataReference) usep)
    (h3 : goContains (ptrToStr e.workload.externalDataReference) msep = true) :
    (containsKey mm
        (goSplitHead (ptrToStr e.workload.externalDataReference) msep ++
          e.workload.hostname) = false →
      processUnmanaged mm um labelKeys e =
        .delete [e.workload.href, e.pce.fqdn, e.pce.friendlyName]
          e.pce.fqdn e.workload.href ∧
      ∀ acc, phase2Step mm um labelKeys acc e =
        { acc with
            deleteCsv := acc.deleteCsv ++
              [[e.workload.href, e.pce.fqdn, e.pce.friendlyName]],
            deleteHrefMap :=
              hrefMapAppend acc.deleteHrefMap e.pce.fqdn e.workload.href }) ∧
    (containsKey mm
        (goSplitHead (ptrToStr e.workload.externalDataReference) msep ++
          e.workload.hostname) = true →
      processUnmanaged mm um labelKeys e = .keep ∧
      ∀ acc, phase2Step mm um labelKeys acc e = acc) := by
  have hp := processUnmanaged_rule3 mm um labelKeys e h1 h2 h3
  constructor
  · intro habs
    rw [habs] at hp
    simp only [Bool.false_eq_true, if_false] at hp
    refine ⟨hp, fun acc => ?_⟩
    unfold phase2Step
    rw [hp]
  · intro hpres
    rw [hpres] at hp
    simp only [if_true] at hp
    refine ⟨hp, fun acc => ?_⟩
    unfold phase2Step
    rw [hp]

/-- Witness for C1 at a concrete input: the chained proxy on instance B whose
managed source is gone is scheduled for deletion on B, and with the managed
entry present nothing is scheduled. -/
theorem c1_witness :
    ptrToStr wkldChain.externalDataSet = "wkld-replicate" ∧
    pceB.fqdn ≠ goSplitHead (ptrToStr wkldChain.externalDataReference) usep ∧
    goContains (ptrToStr wkldChain.externalDataReference) msep = true ∧
    containsKey [] "c.pceh1" = false ∧
    processUnmanaged [] [] keys4 ⟨pceB, wkldChain⟩ =
      .delete ["/w/x", "b.pce", "B"] "b.pce" "/w/x" ∧
    containsKey [("c.pceh1", ⟨pceC, wkldManaged⟩)] "c.pceh1" = true ∧
    processUnmanaged [("c.pceh1", ⟨pceC, wkldManaged⟩)] [] keys4 ⟨pceB, wkldChain⟩ =
      UnmanagedAction.keep := by
  refine ⟨by decide, by decide, by decide, by decide, ?_, by decide, ?_⟩
  · have h := ((c1_managed_proxy_delete [] [] keys4 ⟨pceB, wkldChain⟩
      (by decide) (by decide) (by decide)).1 (by decide)).1
    rw [h]
    rfl
  · exact ((c1_managed_proxy_delete [("c.pceh1", ⟨pceC, wkldManaged⟩)] [] keys4
      ⟨pceB, wkldChain⟩ (by decide) (by decide) (by decide)).2 (by decide)).1

/- ------------------------------------------------------------------ -/
/- C7. -/

theorem getD_append_left (l1 l2 : List String) (i : Nat) (h : i < l1.length) :
    (l1 ++ l2).getD i "" = l1.getD i "" := by
  rw [List.getD_eq_getElem?_getD, List.getD_eq_getElem?_getD,
    List.getElem?_append, if_pos h]

/-- C7: for every label key in the discovered key set, the label column at
position 3 plus the key's index of any row built from a workload's label
slice is the workload's value for that key when the workload has it, and the
literal sentinel "wkld-replicate-remove" — never the empty string — when it
does not. -/
theorem c7_label_columns (labelKeys : List String) (w : Workload) (p : PCE)
    (i : Nat) (hi : i < labelKeys.length) :
    (getLabelValueByKey w (labelKeys.getD i "") = none →
      (labelSlice w p labelKeys).getD i "" = "wkld-replicate-remove" ∧
      (labelSlice w p labelKeys).getD i "" ≠ "") ∧
    (∀ v, getLabelValueByKey w (labelKeys.getD i "") = some v →
      (labelSlice w p labelKeys).getD i "" = v) ∧
    (∀ source hostname description ifs eds edr,
      (mkRow source hostname description (labelSlice w p labelKeys) ifs eds edr).getD
          (3 + i) "" =
        (labelSlice w p labelKeys).getD i "") := by
  have hg := labelSlice_getD w p labelKeys i hi
  refine ⟨fun hnone => ?_, fun v hsome => ?_, fun source hostname description ifs eds edr => ?_⟩
  · rw [hg, hnone]
    exact ⟨rfl, by decide⟩
  · rw [hg, hsome]
  · have hm : mkRow source hostname description (labelSlice w p labelKeys) ifs eds edr =
        [source, hostname, description] ++ (labelSlice w p labelKeys ++ [ifs, eds, edr]) := rfl
    have hidx : 3 + i = [source, hostname, description].length + i := by
      simp only [List.length_cons, List.length_nil]
    rw [hm, hidx, getD_append_shift]
    exact getD_append_left _ _ i (by rw [labelSlice_length]; exact hi)

/-- Witness for C7 at a concrete input: the organic workload has a value for
"app" and none for "role". -/
theorem c7_witness :
    (0 < keys4.length ∧ 1 < keys4.length) ∧
    getLabelValueByKey wkldOrganic (keys4.getD 0 "") = none ∧
    (labelSlice wkldOrganic pceC keys4).getD 0 "" = "wkld-replicate-remove" ∧
    (labelSlice wkldOrganic pceC keys4).getD 0 "" ≠ "" ∧
    (labelSlice wkldOrganic pceC keys4).getD 1 "" = "erp" := by
  refine ⟨⟨by decide, by decide⟩, by decide, ?_, ?_, ?_⟩
  · exact ((c7_label_columns keys4 wkldOrganic pceC 0 (by decide)).1 (by decide)).1
  · exact ((c7_label_columns keys4 wkldOrganic pceC 0 (by decide)).1 (by decide)).2
  · exact (c7_label_columns keys4 wkldOrganic pceC 1 (by decide)).2.1 "erp" (by decide)

/- ------------------------------------------------------------------ -/
/- C6. -/

/-- C6: no PCE mutation occurs unless execution is enabled — with update-pce
off the run's effects are exactly the CSV writes, which are not mutations —
and with execution enabled but the prompt not suppressed, the apply phase
runs exactly when the operator's answer lower-cases to "yes"; any other
answer ends the run after the writes. -/
theorem c6_execution_gate (api : String → String → Except String Nat)
    (pces : List PCE) (skip labelKeys : List String) (noPrompt : Bool)
    (answer ts outputFileName : String) (out : RunOutput)
    (h : runReconcile pces skip labelKeys = .ok out) :
    fullRunEffects api pces skip labelKeys false noPrompt answer ts outputFileName =
      .ok (writeEffects out ts outputFileName) ∧
    (writeEffects out ts outputFileName).all (fun e => !e.isMutation) = true ∧
    (goToLower answer ≠ "yes" →
      fullRunEffects api pces skip labelKeys true false answer ts outputFileName =
        .ok (writeEffects out ts outputFileName)) ∧
    (goToLower answer = "yes" →
      fullRunEffects api pces skip labelKeys true false answer ts outputFileName =
        .ok (writeEffects out ts outputFileName ++ applyPhase api pces out)) := by
  refine ⟨?_, ?_, fun hno => ?_, fun hyes => ?_⟩
  · unfold fullRunEffects
    rw [h]
    simp [Except.map, mutationGate]
  · rw [List.all_eq_true]
    intro x hx
    unfold writeEffects at hx
    rcases List.mem_append.mp hx with hx' | hx' <;>
      [skip; skip] <;> split at hx' <;> simp at hx' <;> simp [hx', Effect.isMutation]
  · unfold fullRunEffects
    rw [h]
    have hg : mutationGate true false answer = false := by
      simp [mutationGate, hno]
    simp [Except.map, hg]
  · unfold fullRunEffects
    rw [h]
    have hg : mutationGate true false answer = true := by
      simp [mutationGate, hyes]
    simp [Except.map, hg]

/-- Witness for C6 at a concrete input: with execution disabled nothing but
the write effects happens, a denied prompt stops before mutation, and a "Yes"
answer proceeds to the apply phase. -/
theorem c6_witness :
    runReconcile [pceA, pceB] [] keys4 =
      .ok (runReconcileT [pceA, pceB] [] keys4) ∧
    fullRunEffects okApi [pceA, pceB] [] keys4 false false "no" "t" "" =
      .ok (writeEffects (runReconcileT [pceA, pceB] [] keys4) "t" "") ∧
    (writeEffects (runReconcileT [pceA, pceB] [] keys4) "t" "").all
      (fun e => !e.isMutation) = true ∧
    fullRunEffects okApi [pceA, pceB] [] keys4 true false "No" "t" "" =
      .ok (writeEffects (runReconcileT [pceA, pceB] [] keys4) "t" "") ∧
    fullRunEffects okApi [pceA, pceB] [] keys4 true false "Yes" "t" "" =
      .ok (writeEffects (runReconcileT [pceA, pceB] [] keys4) "t" "" ++
        applyPhase okApi [pceA, pceB] (runReconcileT [pceA, pceB] [] keys4)) := by
  have h : runReconcile [pceA, pceB] [] keys4 =
      .ok (runReconcileT [pceA, pceB] [] keys4) := by rfl
  have hc := c6_execution_gate okApi [pceA, pceB] [] keys4 false "no" "t" ""
    (runReconcileT [pceA, pceB] [] keys4) h
  have hc2 := c6_execution_gate okApi [pceA, pceB] [] keys4 false "No" "t" ""
    (runReconcileT [pceA, pceB] [] keys4) h
  have hc3 := c6_execution_gate okApi [pceA, pceB] [] keys4 false "Yes" "t" ""
    (runReconcileT [pceA, pceB] [] keys4) h
  exact ⟨h, hc.1, hc.2.1, hc2.2.2.1 (by decide), hc3.2.2.2 (by decide)⟩

/- ------------------------------------------------------------------ -/
/- C5. -/

/-- C5 (code bug): a skip-source name absent from the pce list is a fatal
configuration error raised before any workload API call, but the message the
operator sees is the unformatted literal — it contains the verb "%s" and not
the offending name. -/
theorem c5_error_message_lacks_name :
    validateSkipSources "pceB" ["pceA"] = .error skipSourceErrorMsg ∧
    goContains skipSourceErrorMsg "pceB" = false ∧
    goContains skipSourceErrorMsg "%s" = true := by
  refine ⟨rfl, by decide, by decide⟩

/- ------------------------------------------------------------------ -/
/- C4. -/

/-- Counterexample to C4 as stated: with an api failing on the first of two
scheduled hrefs, the failure is fatal — the second href is never attempted
and the loop reports the run aborted, so execution does not continue with the
remaining items. -/
theorem c4_counterexample :
    runDeletesForPce failingApi "a.pce" ["/w/d1", "/w/d2"] =
      ([Effect.deleteAttempt "a.pce" "/w/d1", Effect.logFatal "api error"], true) ∧
    Effect.deleteAttempt "a.pce" "/w/d2" ∉
      (runDeletesForPce failingApi "a.pce" ["/w/d1", "/w/d2"]).1 := by
  exact ⟨rfl, by decide⟩

/-- C4 amended: a failing delete API call in the apply phase is fatal — it is
logged for that item and the run aborts: the hrefs after the failing one are
not attempted and the remaining instances are not processed. -/
theorem c4_amended_delete_failure_aborts (api : String → String → Except String Nat)
    (fqdn : String) (pre post : List String) (h msg : String)
    (hpre : ∀ x ∈ pre, (api fqdn x).isOk = true)
    (herr : api fqdn h = .error msg) :
    runDeletesForPce api fqdn (pre ++ h :: post) =
      (deleteOkEffects api fqdn pre ++
        [Effect.deleteAttempt fqdn h, Effect.logFatal msg], true) ∧
    (∀ (p : PCE) (rest : List PCE) (out : RunOutput), p.fqdn = fqdn →
      out.deleteCsv.length > 1 →
      (out.deleteHrefMap.lookup fqdn).getD [] = pre ++ h :: post →
      applyPhase api (p :: rest) out =
        (if out.importCsv.length > 1 then
          [Effect.importRun p.friendlyName p.fqdn out.importCsv] else []) ++
        (deleteOkEffects api fqdn pre ++
          [Effect.deleteAttempt fqdn h, Effect.logFatal msg])) := by
  have main : runDeletesForPce api fqdn (pre ++ h :: post) =
      (deleteOkEffects api fqdn pre ++
        [Effect.deleteAttempt fqdn h, Effect.logFatal msg], true) := by
    induction pre with
    | nil =>
      simp only [List.nil_append, runDeletesForPce, herr, deleteOkEffects,
        List.flatMap_nil]
    | cons x pre ih =>
      have hx : (api fqdn x).isOk = true := hpre x (List.mem_cons_self x pre)
      cases hax : api fqdn x with
      | error e => rw [hax] at hx; simp [Except.isOk, Except.toBool] at hx
      | ok code =>
        have ih' := ih (fun y hy => hpre y (List.mem_cons_of_mem x hy))
        have step : runDeletesForPce api fqdn ((x :: pre) ++ h :: post) =
            (Effect.deleteAttempt fqdn x :: Effect.deleteSuccess fqdn x code ::
              (runDeletesForPce api fqdn (pre ++ h :: post)).1,
             (runDeletesForPce api fqdn (pre ++ h :: post)).2) := by
          simp only [List.cons_append, runDeletesForPce, hax]
          rfl
        rw [step, ih']
        simp [deleteOkEffects, List.flatMap_cons, hax]
  refine ⟨main, fun p rest out hp hd hm => ?_⟩
  unfold applyPhase
  rw [if_pos hd, hp, hm, main]
  simp

/-- Witness for C4 amended at a concrete input. -/
theorem c4_amended_witness :
    (∀ x ∈ ([] : List String), (failingApi "a.pce" x).isOk = true) ∧
    failingApi "a.pce" "/w/d1" = .error "api error" ∧
    runDeletesForPce failingApi "a.pce" ([] ++ "/w/d1" :: ["/w/d2"]) =
      (deleteOkEffects failingApi "a.pce" [] ++
        [Effect.deleteAttempt "a.pce" "/w/d1", Effect.logFatal "api error"], true) :=
  ⟨by simp, rfl,
    (c4_amended_delete_failure_aborts failingApi "a.pce" [] ["/w/d2"] "/w/d1"
      "api error" (by simp) rfl).1⟩

/- ------------------------------------------------------------------ -/
/- C9 counterexample. -/

/-- Counterexample to C9 as stated: a complete run over an instance with no
workloads produces no file-write effect at all — a batch holding only its
header row is not written, so the two CSV files are not written on every
run. -/
theorem c9_counterexample :
    fullRunEffects okApi [pceEmpty] [] keys4 true true "yes" "20240101_000000" "" =
      .ok [] := by
  rfl

/- ------------------------------------------------------------------ -/
/- Collection-phase characterisation. -/

theorem collectWorkloadT_managed (p : PCE) (labelKeys : List String)
    (st : CollectSt) (w : Workload) :
    (collectWorkloadT p labelKeys st w).managed =
      if w.getMode = "unmanaged" then st.managed
      else mapInsert st.managed (p.fqdn ++ w.hostname) ⟨p, w⟩ := by
  by_cases h : w.getMode = "unmanaged" <;> simp [collectWorkloadT, h]

theorem collectWorkloadT_unmanaged (p : PCE) (labelKeys : List String)
    (st : CollectSt) (w : Workload) :
    (collectWorkloadT p labelKeys st w).unmanaged =
      if w.getMode = "unmanaged" then
        mapInsert st.unmanaged (p.fqdn ++ w.hostname) ⟨p, w⟩
      else st.unmanaged := by
  by_cases h : w.getMode = "unmanaged" <;> simp [collectWorkloadT, h]

theorem collectWorkloadT_importRows (p : PCE) (labelKeys : List String)
    (st : CollectSt) (w : Workload) :
    (collectWorkloadT p labelKeys st w).importRows =
      if w.getMode = "unmanaged" then st.importRows
      else st.importRows ++ [managedRow p labelKeys w] := by
  by_cases h : w.getMode = "unmanaged" <;> simp [collectWorkloadT, h]

theorem collectWorkloadT_deleteHrefKeys (p : PCE) (labelKeys : List String)
    (st : CollectSt) (w : Workload) :
    (collectWorkloadT p labelKeys st w).deleteHrefKeys = st.deleteHrefKeys := by
  by_cases h : w.getMode = "unmanaged" <;> simp [collectWorkloadT, h]

theorem foldlW_managed_mem (p : PCE) (labelKeys : List String) :
    ∀ (ws : List Workload) (st : CollectSt)
      (kv : String × ReplicateWkld),
      kv ∈ (ws.foldl (collectWorkloadT p labelKeys) st).managed →
      kv ∈ st.managed ∨ ∃ w ∈ ws, w.getMode ≠ "unmanaged" ∧
        kv = (p.fqdn ++ w.hostname, ⟨p, w⟩) := by
  intro ws
  induction ws with
  | nil => intro st kv h; exact Or.inl h
  | cons x ws ih =>
    intro st kv h
    rcases ih _ kv h with h' | ⟨w, hw, hmode, hkv⟩
    · rw [collectWorkloadT_managed] at h'
      by_cases hx : x.getMode = "unmanaged"
      · rw [if_pos hx] at h'; exact Or.inl h'
      · rw [if_neg hx] at h'
        rcases mem_mapInsert h' with h'' | h''
        · exact Or.inl h''
        · exact Or.inr ⟨x, List.mem_cons_self x ws, hx, h''⟩
    · exact Or.inr ⟨w, List.mem_cons_of_mem x hw, hmode, hkv⟩

theorem foldlW_unmanaged_mem (p : PCE) (labelKeys : List String) :
    ∀ (ws : List Workload) (st : CollectSt)
      (kv : String × ReplicateWkld),
      kv ∈ (ws.foldl (collectWorkloadT p labelKeys) st).unmanaged →
      kv ∈ st.unmanaged ∨ ∃ w ∈ ws, w.getMode = "unmanaged" ∧
        kv = (p.fqdn ++ w.hostname, ⟨p, w⟩) := by
  intro ws
  induction ws with
  | nil => intro st kv h; exact Or.inl h
  | cons x ws ih =>
    intro st kv h
    rcases ih _ kv h with h' | ⟨w, hw, hmode, hkv⟩
    · rw [collectWorkloadT_unmanaged] at h'
      by_cases hx : x.getMode = "unmanaged"
      · rw [if_pos hx] at h'
        rcases mem_mapInsert h' with h'' | h''
        · exact Or.inl h''
        · exact Or.inr ⟨x, List.mem_cons_self x ws, hx, h''⟩
      · rw [if_neg hx] at h'; exact Or.inl h'
    · exact Or.inr ⟨w, List.mem_cons_of_mem x hw, hmode, hkv⟩

theorem foldlW_importRows_mem (p : PCE) (labelKeys : List String) :
    ∀ (ws : List Workload) (st : CollectSt) (row : List String),
      row ∈ (ws.foldl (collectWorkloadT p labelKeys) st).importRows →
      row ∈ st.importRows ∨ ∃ w ∈ ws, w.getMode ≠ "unmanaged" ∧
        row = managedRow p labelKeys w := by
  intro ws
  induction ws with
  | nil => intro st row h; exact Or.inl h
  | cons x ws ih =>
    intro st row h
    rcases ih _ row h with h' | ⟨w, hw, hmode, hrow⟩
    · rw [collectWorkloadT_importRows] at h'
      by_cases hx : x.getMode = "unmanaged"
      · rw [if_pos hx] at h'; exact Or.inl h'
      · rw [if_neg hx] at h'
        rcases List.mem_append.mp h' with h'' | h''
        · exact Or.inl h''
        · exact Or.inr ⟨x, List.mem_cons_self x ws, hx, by simpa using h''⟩
    · exact Or.inr ⟨w, List.mem_cons_of_mem x hw, hmode, hrow⟩

theorem foldlW_deleteHrefKeys (p : PCE) (labelKeys : List String) :
    ∀ (ws : List Workload) (st : CollectSt),
      (ws.foldl (collectWorkloadT p labelKeys) st).deleteHrefKeys =
        st.deleteHrefKeys := by
  intro ws
  induction ws with
  | nil => intro st; rfl
  | cons x ws ih =>
    intro st
    rw [List.foldl_cons, ih, collectWorkloadT_deleteHrefKeys]

theorem collectPCET_managed_mem (skip : List String) (labelKeys : List String)
    (st : CollectSt) (p : PCE) (kv : String × ReplicateWkld)
    (h : kv ∈ (collectPCET skip labelKeys st p).managed) :
    kv ∈ st.managed ∨ (skip.contains p.friendlyName = false ∧
      ∃ w ∈ p.workloadsSlice, w.getMode ≠ "unmanaged" ∧
        kv = (p.fqdn ++ w.hostname, ⟨p, w⟩)) := by
  unfold collectPCET at h
  by_cases hs : skip.contains p.friendlyName = true
  · rw [if_pos hs] at h; exact Or.inl h
  · rw [if_neg hs] at h
    rcases foldlW_managed_mem p labelKeys _ _ kv h with h' | h'
    · exact Or.inl h'
    · exact Or.inr ⟨Bool.not_eq_true _ ▸ hs, h'⟩

theorem collectPCET_unmanaged_mem (skip : List String) (labelKeys : List String)
    (st : CollectSt) (p : PCE) (kv : String × ReplicateWkld)
    (h : kv ∈ (collectPCET skip labelKeys st p).unmanaged) :
    kv ∈ st.unmanaged ∨ (skip.contains p.friendlyName = false ∧
      ∃ w ∈ p.workloadsSlice, w.getMode = "unmanaged" ∧
        kv = (p.fqdn ++ w.hostname, ⟨p, w⟩)) := by
  unfold collectPCET at h
  by_cases hs : skip.contains p.friendlyName = true
  · rw [if_pos hs] at h; exact Or.inl h
  · rw [if_neg hs] at h
    rcases foldlW_unmanaged_mem p labelKeys _ _ kv h with h' | h'
    · exact Or.inl h'
    · exact Or.inr ⟨Bool.not_eq_true _ ▸ hs, h'⟩

theorem collectPCET_importRows_mem (skip : List String) (labelKeys : List String)
    (st : CollectSt) (p : PCE) (row : List String)
    (h : row ∈ (collectPCET skip labelKeys st p).importRows) :
    row ∈ st.importRows ∨ (skip.contains p.friendlyName = false ∧
      ∃ w ∈ p.workloadsSlice, w.getMode ≠ "unmanaged" ∧
        row = managedRow p labelKeys w) := by
  unfold collectPCET at h
  by_cases hs : skip.contains p.friendlyName = true
  · rw [if_pos hs] at h; exact Or.inl h
  · rw [if_neg hs] at h
    rcases foldlW_importRows_mem p labelKeys _ _ row h with h' | h'
    · exact Or.inl h'
    · exact Or.inr ⟨Bool.not_eq_true _ ▸ hs, h'⟩

theorem collectPCET_deleteHrefKeys_mem (skip : List String) (labelKeys : List String)
    (st : CollectSt) (p : PCE) (f : String)
    (h : f ∈ (collectPCET skip labelKeys st p).deleteHrefKeys) :
    f ∈ st.deleteHrefKeys ∨
      (skip.contains p.friendlyName = false ∧ f = p.fqdn) := by
  unfold collectPCET at h
  by_cases hs : skip.contains p.friendlyName = true
  · rw [if_pos hs] at h; exact Or.inl h
  · rw [if_neg hs] at h
    rw [foldlW_deleteHrefKeys] at h
    rcases List.mem_append.mp h with h' | h'
    · exact Or.inl h'
    · exact Or.inr ⟨Bool.not_eq_true _ ▸ hs, by simpa using h'⟩

theorem collectAllT_managed_mem (pces : List PCE) (skip : List String)
    (labelKeys : List String) (kv : String × ReplicateWkld)
    (h : kv ∈ (collectAllT pces skip labelKeys).managed) :
    ∃ p ∈ pces, skip.contains p.friendlyName = false ∧
      ∃ w ∈ p.workloadsSlice, w.getMode ≠ "unmanaged" ∧
        kv = (p.fqdn ++ w.hostname, ⟨p, w⟩) := by
  unfold collectAllT at h
  suffices hgen : ∀ (l : List PCE) (st : CollectSt),
      kv ∈ (l.foldl (collectPCET skip labelKeys) st).managed →
      kv ∈ st.managed ∨ ∃ p ∈ l, skip.contains p.friendlyName = false ∧
        ∃ w ∈ p.workloadsSlice, w.getMode ≠ "unmanaged" ∧
          kv = (p.fqdn ++ w.hostname, ⟨p, w⟩) by
    rcases hgen pces emptyCollect h with h' | h'
    · simp [emptyCollect] at h'
    · exact h'
  intro l
  induction l with
  | nil => intro st h'; exact Or.inl h'
  | cons q l ih =>
    intro st h'
    rcases ih _ h' with h'' | ⟨p, hp, hrest⟩
    · rcases collectPCET_managed_mem skip labelKeys st q kv h'' with h3 | h3
      · exact Or.inl h3
      · exact Or.inr ⟨q, List.mem_cons_self q l, h3⟩
    · exact Or.inr ⟨p, List.mem_cons_of_mem q hp, hrest⟩

theorem collectAllT_unmanaged_mem (pces : List PCE) (skip : List String)
    (labelKeys : List String) (kv : String × ReplicateWkld)
    (h : kv ∈ (collectAllT pces skip labelKeys).unmanaged) :
    ∃ p ∈ pces, skip.contains p.friendlyName = false ∧
      ∃ w ∈ p.workloadsSlice, w.getMode = "unmanaged" ∧
        kv = (p.fqdn ++ w.hostname, ⟨p, w⟩) := by
  unfold collectAllT at h
  suffices hgen : ∀ (l : List PCE) (st : CollectSt),
      kv ∈ (l.foldl (collectPCET skip labelKeys) st).unmanaged →
      kv ∈ st.unmanaged ∨ ∃ p ∈ l, skip.contains p.friendlyName = false ∧
        ∃ w ∈ p.workloadsSlice, w.getMode = "unmanaged" ∧
          kv = (p.fqdn ++ w.hostname, ⟨p, w⟩) by
    rcases hgen pces emptyCollect h with h' | h'
    · simp [emptyCollect] at h'
    · exact h'
  intro l
  induction l with
  | nil => intro st h'; exact Or.inl h'
  | cons q l ih =>
    intro st h'
    rcases ih _ h' with h'' | ⟨p, hp, hrest⟩
    · rcases collectPCET_unmanaged_mem skip labelKeys st q kv h'' with h3 | h3
      · exact Or.inl h3
      · exact Or.inr ⟨q, List.mem_cons_self q l, h3⟩
    · exact Or.inr ⟨p, List.mem_cons_of_mem q hp, hrest⟩

theorem collectAllT_importRows_mem (pces : List PCE) (skip : List String)
    (labelKeys : List String) (row : List String)
    (h : row ∈ (collectAllT pces skip labelKeys).importRows) :
    ∃ p ∈ pces, skip.contains p.friendlyName = false ∧
      ∃ w ∈ p.workloadsSlice, w.getMode ≠ "unmanaged" ∧
        row = managedRow p labelKeys w := by
  unfold collectAllT at h
  suffices hgen : ∀ (l : List PCE) (st : CollectSt),
      row ∈ (l.foldl (collectPCET skip labelKeys) st).importRows →
      row ∈ st.importRows ∨ ∃ p ∈ l, skip.contains p.friendlyName = false ∧
        ∃ w ∈ p.workloadsSlice, w.getMode ≠ "unmanaged" ∧
          row = managedRow p labelKeys w by
    rcases hgen pces emptyCollect h with h' | h'
    · simp [emptyCollect] at h'
    · exact h'
  intro l
  induction l with
  | nil => intro st h'; exact Or.inl h'
  | cons q l ih =>
    intro st h'
    rcases ih _ h' with h'' | ⟨p, hp, hrest⟩
    · rcases collectPCET_importRows_mem skip labelKeys st q row h'' with h3 | h3
      · exact Or.inl h3
      · exact Or.inr ⟨q, List.mem_cons_self q l, h3⟩
    · exact Or.inr ⟨p, List.mem_cons_of_mem q hp, hrest⟩

theorem collectAllT_deleteHrefKeys_mem (pces : List PCE) (skip : List String)
    (labelKeys : List String) (f : String)
    (h : f ∈ (collectAllT pces skip labelKeys).deleteHrefKeys) :
    ∃ p ∈ pces, skip.contains p.friendlyName = false ∧ f = p.fqdn := by
  unfold collectAllT at h
  suffices hgen : ∀ (l : List PCE) (st : CollectSt),
      f ∈ (l.foldl (collectPCET skip labelKeys) st).deleteHrefKeys →
      f ∈ st.deleteHrefKeys ∨
        ∃ p ∈ l, skip.contains p.friendlyName = false ∧ f = p.fqdn by
    rcases hgen pces emptyCollect h with h' | h'
    · simp [emptyCollect] at h'
    · exact h'
  intro l
  induction l with
  | nil => intro st h'; exact Or.inl h'
  | cons q l ih =>
    intro st h'
    rcases ih _ h' with h'' | ⟨p, hp, hrest⟩
    · rcases collectPCET_deleteHrefKeys_mem skip labelKeys st q f h'' with h3 | h3
      · exact Or.inl h3
      · exact Or.inr ⟨q, List.mem_cons_self q l, h3⟩
    · exact Or.inr ⟨p, List.mem_cons_of_mem q hp, hrest⟩

/- ------------------------------------------------------------------ -/
/- Key-presence (completeness) in the collection maps. -/

theorem containsKey_collectWorkloadT_managed_mono (p : PCE) (labelKeys : List String)
    (st : CollectSt) (w : Workload) (k : String)
    (h : containsKey st.managed k = true) :
    containsKey (collectWorkloadT p labelKeys st w).managed k = true := by
  rw [collectWorkloadT_managed]
  by_cases hx : w.getMode = "unmanaged"
  · rw [if_pos hx]; exact h
  · rw [if_neg hx]
    exact (containsKey_mapInsert_iff _ _ _ _).mpr (Or.inr h)

theorem containsKey_collectWorkloadT_unmanaged_mono (p : PCE) (labelKeys : List String)
    (st : CollectSt) (w : Workload) (k : String)
    (h : containsKey st.unmanaged k = true) :
    containsKey (collectWorkloadT p labelKeys st w).unmanaged k = true := by
  rw [collectWorkloadT_unmanaged]
  by_cases hx : w.getMode = "unmanaged"
  · rw [if_pos hx]
    exact (containsKey_mapInsert_iff _ _ _ _).mpr (Or.inr h)
  · rw [if_neg hx]; exact h

theorem containsKey_foldlW_managed_mono (p : PCE) (labelKeys : List String) :
    ∀ (ws : List Workload) (st : CollectSt) (k : String),
      containsKey st.managed k = true →
      containsKey ((ws.foldl (collectWorkloadT p labelKeys) st)).managed k = true := by
  intro ws
  induction ws with
  | nil => intro st k h; exact h
  | cons x ws ih =>
    intro st k h
    exact ih _ k (containsKey_collectWorkloadT_managed_mono p labelKeys st x k h)

theorem containsKey_foldlW_unmanaged_mono (p : PCE) (labelKeys : List String) :
    ∀ (ws : List Workload) (st : CollectSt) (k : String),
      containsKey st.unmanaged k = true →
      containsKey ((ws.foldl (collectWorkloadT p labelKeys) st)).unmanaged k = true := by
  intro ws
  induction ws with
  | nil => intro st k h; exact h
  | cons x ws ih =>
    intro st k h
    exact ih _ k (containsKey_collectWorkloadT_unmanaged_mono p labelKeys st x k h)

theorem containsKey_foldlW_managed_complete (p : PCE) (labelKeys : List String) :
    ∀ (ws : List Workload) (st : CollectSt) (w : Workload),
      w ∈ ws → w.getMode ≠ "unmanaged" →
      containsKey ((ws.foldl (collectWorkloadT p labelKeys) st)).managed
        (p.fqdn ++ w.hostname) = true := by
  intro ws
  induction ws with
  | nil => intro st w h; simp at h
  | cons x ws ih =>
    intro st w hw hmode
    rcases List.mem_cons.mp hw with rfl | hw'
    · rw [List.foldl_cons]
      apply containsKey_foldlW_managed_mono
      rw [collectWorkloadT_managed, if_neg hmode]
      exact (containsKey_mapInsert_iff _ _ _ _).mpr (Or.inl rfl)
    · exact ih _ w hw' hmode

theorem containsKey_foldlW_unmanaged_complete (p : PCE) (labelKeys : List String) :
    ∀ (ws : List Workload) (st : CollectSt) (w : Workload),
      w ∈ ws → w.getMode = "unmanaged" →
      containsKey ((ws.foldl (collectWorkloadT p labelKeys) st)).unmanaged
        (p.fqdn ++ w.hostname) = true := by
  intro ws
  induction ws with
  | nil => intro st w h; simp at h
  | cons x ws ih =>
    intro st w hw hmode
    rcases List.mem_cons.mp hw with rfl | hw'
    · rw [List.foldl_cons]
      apply containsKey_foldlW_unmanaged_mono
      rw [collectWorkloadT_unmanaged, if_pos hmode]
      exact (containsKey_mapInsert_iff _ _ _ _).mpr (Or.inl rfl)
    · exact ih _ w hw' hmode

theorem containsKey_collectPCET_managed_mono (skip : List String)
    (labelKeys : List String) (st : CollectSt) (p : PCE) (k : String)
    (h : containsKey st.managed k = true) :
    containsKey (collectPCET skip labelKeys st p).managed k = true := by
  unfold collectPCET
  by_cases hs : skip.contains p.friendlyName = true
  · rw [if_pos hs]; exact h
  · rw [if_neg hs]
    exact containsKey_foldlW_managed_mono p labelKeys _ _ k h

theorem containsKey_collectPCET_unmanaged_mono (skip : List String)
    (labelKeys : List String) (st : CollectSt) (p : PCE) (k : String)
    (h : containsKey st.unmanaged k = true) :
    containsKey (collectPCET skip labelKeys st p).unmanaged k = true := by
  unfold collectPCET
  by_cases hs : skip.contains p.friendlyName = true
  · rw [if_pos hs]; exact h
  · rw [if_neg hs]
    exact containsKey_foldlW_unmanaged_mono p labelKeys _ _ k h

theorem containsKey_foldlP_managed_mono (skip : List String)
    (labelKeys : List String) :
    ∀ (l : List PCE) (st : CollectSt) (k : String),
      containsKey st.managed k = true →
      containsKey ((l.foldl (collectPCET skip labelKeys) st)).managed k = true := by
  intro l
  induction l with
  | nil => intro st k h; exact h
  | cons q l ih =>
    intro st k h
    exact ih _ k (containsKey_collectPCET_managed_mono skip labelKeys st q k h)

theorem containsKey_foldlP_unmanaged_mono (skip : List String)
    (labelKeys : List String) :
    ∀ (l : List PCE) (st : CollectSt) (k : String),
      containsKey st.unmanaged k = true →
      containsKey ((l.foldl (collectPCET skip labelKeys) st)).unmanaged k = true := by
  intro l
  induction l with
  | nil => intro st k h; exact h
  | cons q l ih =>
    intro st k h
    exact ih _ k (containsKey_collectPCET_unmanaged_mono skip labelKeys st q k h)

theorem containsKey_collectAllT_managed_complete (pces : List PCE)
    (skip : List String) (labelKeys : List String) (p : PCE) (w : Workload)
    (hp : p ∈ pces) (hs : skip.contains p.friendlyName = false)
    (hw : w ∈ p.workloadsSlice) (hmode : w.getMode ≠ "unmanaged") :
    containsKey (collectAllT pces skip labelKeys).managed
      (p.fqdn ++ w.hostname) = true := by
  unfold collectAllT
  suffices hgen : ∀ (l : List PCE) (st : CollectSt), p ∈ l →
      containsKey ((l.foldl (collectPCET skip labelKeys) st)).managed
        (p.fqdn ++ w.hostname) = true from hgen pces emptyCollect hp
  intro l
  induction l with
  | nil => intro st h; simp at h
  | cons q l ih =>
    intro st hql
    rcases List.mem_cons.mp hql with rfl | hql'
    · rw [List.foldl_cons]
      apply containsKey_foldlP_managed_mono
      unfold collectPCET
      rw [if_neg (by rw [hs]; simp)]
      exact containsKey_foldlW_managed_complete p labelKeys _ _ w hw hmode
    · exact ih _ hql'

theorem containsKey_collectAllT_unmanaged_complete (pces : List PCE)
    (skip : List String) (labelKeys : List String) (p : PCE) (w : Workload)
    (hp : p ∈ pces) (hs : skip.contains p.friendlyName = false)
    (hw : w ∈ p.workloadsSlice) (hmode : w.getMode = "unmanaged") :
    containsKey (collectAllT pces skip labelKeys).unmanaged
      (p.fqdn ++ w.hostname) = true := by
  unfold collectAllT
  suffices hgen : ∀ (l : List PCE) (st : CollectSt), p ∈ l →
      containsKey ((l.foldl (collectPCET skip labelKeys) st)).unmanaged
        (p.fqdn ++ w.hostname) = true from hgen pces emptyCollect hp
  intro l
  induction l with
  | nil => intro st h; simp at h
  | cons q l ih =>
    intro st hql
    rcases List.mem_cons.mp hql with rfl | hql'
    · rw [List.foldl_cons]
      apply containsKey_foldlP_unmanaged_mono
      unfold collectPCET
      rw [if_neg (by rw [hs]; simp)]
      exact containsKey_foldlW_unmanaged_complete p labelKeys _ _ w hw hmode
    · exact ih _ hql'

/- ------------------------------------------------------------------ -/
/- Phase-2 fold characterisation. -/

theorem processUnmanaged_upsert_char (mm um : List (String × ReplicateWkld))
    (labelKeys : List String) (e : ReplicateWkld) (row : List String)
    (h : processUnmanaged mm um labelKeys e = .upsert row) :
    (ptrToStr e.workload.externalDataSet ≠ "wkld-replicate" ∧
      row = unmanagedRow e labelKeys (claimStamp e)) ∨
    (ptrToStr e.workload.externalDataSet = "wkld-replicate" ∧
      e.pce.fqdn = goSplitHead (ptrToStr e.workload.externalDataReference) usep ∧
      row = unmanagedRow e labelKeys e.workload) := by
  by_cases h1 : ptrToStr e.workload.externalDataSet = "wkld-replicate"
  · by_cases h2 : e.pce.fqdn = goSplitHead (ptrToStr e.workload.externalDataReference) usep
    · rw [processUnmanaged_rule2 mm um labelKeys e h1 h2] at h
      simp only [UnmanagedAction.upsert.injEq] at h
      exact Or.inr ⟨h1, h2, h.symm⟩
    · by_cases h3 : goContains (ptrToStr e.workload.externalDataReference) msep = true
      · rw [processUnmanaged_rule3 mm um labelKeys e h1 h2 h3] at h
        split at h <;> simp at h
      · simp only [Bool.not_eq_true] at h3
        by_cases h4 : goContains (ptrToStr e.workload.externalDataReference) usep = true
        · rw [processUnmanaged_rule4 mm um labelKeys e h1 h2 h3 h4] at h
          split at h <;> simp at h
        · simp only [Bool.not_eq_true] at h4
          rw [processUnmanaged_rule5 mm um labelKeys e h1 h2 h3 h4] at h
          simp at h
  · rw [processUnmanaged_rule1 mm um labelKeys e h1] at h
    simp only [UnmanagedAction.upsert.injEq] at h
    exact Or.inl ⟨h1, h.symm⟩

theorem processUnmanaged_delete_char (mm um : List (String × ReplicateWkld))
    (labelKeys : List String) (e : ReplicateWkld) (row : List String)
    (f hr : String)
    (h : processUnmanaged mm um labelKeys e = .delete row f hr) :
    row = [e.workload.href, e.pce.fqdn, e.pce.friendlyName] ∧
    f = e.pce.fqdn ∧ hr = e.workload.href := by
  by_cases h1 : ptrToStr e.workload.externalDataSet = "wkld-replicate"
  · by_cases h2 : e.pce.fqdn = goSplitHead (ptrToStr e.workload.externalDataReference) usep
    · rw [processUnmanaged_rule2 mm um labelKeys e h1 h2] at h
      simp at h
    · by_cases h3 : goContains (ptrToStr e.workload.externalDataReference) msep = true
      · rw [processUnmanaged_rule3 mm um labelKeys e h1 h2 h3] at h
        split at h <;> simp at h
        exact ⟨h.1.symm, h.2.1.symm, h.2.2.symm⟩
      · simp only [Bool.not_eq_true] at h3
        by_cases h4 : goContains (ptrToStr e.workload.externalDataReference) usep = true
        · rw [processUnmanaged_rule4 mm um labelKeys e h1 h2 h3 h4] at h
          split at h <;> simp at h
          exact ⟨h.1.symm, h.2.1.symm, h.2.2.symm⟩
        · simp only [Bool.not_eq_true] at h4
          rw [processUnmanaged_rule5 mm um labelKeys e h1 h2 h3 h4] at h
          simp at h
  · rw [processUnmanaged_rule1 mm um labelKeys e h1] at h
    simp at h

theorem phase2Step_of_upsert (mm um : List (String × ReplicateWkld))
    (labelKeys : List String) (acc : RunOutput) (e : ReplicateWkld)
    (row : List String)
    (h : processUnmanaged mm um labelKeys e = .upsert row) :
    phase2Step mm um labelKeys acc e =
      { acc with importCsv := acc.importCsv ++ [row] } := by
  unfold phase2Step
  rw [h]

theorem phase2Step_of_delete (mm um : List (String × ReplicateWkld))
    (labelKeys : List String) (acc : RunOutput) (e : ReplicateWkld)
    (row : List String) (f hr : String)
    (h : processUnmanaged mm um labelKeys e = .delete row f hr) :
    phase2Step mm um labelKeys acc e =
      { acc with deleteCsv := acc.deleteCsv ++ [row],
                 deleteHrefMap := hrefMapAppend acc.deleteHrefMap f hr } := by
  unfold phase2Step
  rw [h]

theorem phase2Step_of_keep (mm um : List (String × ReplicateWkld))
    (labelKeys : List String) (acc : RunOutput) (e : ReplicateWkld)
    (h : processUnmanaged mm um labelKeys e = .keep) :
    phase2Step mm um labelKeys acc e = acc := by
  unfold phase2Step
  rw [h]

theorem phase2_foldl_no_delete (mm um : List (String × ReplicateWkld))
    (labelKeys : List String) :
    ∀ (es : List ReplicateWkld) (acc : RunOutput),
      (∀ e ∈ es, (processUnmanaged mm um labelKeys e).isDelete = false) →
      (es.foldl (phase2Step mm um labelKeys) acc).deleteCsv = acc.deleteCsv ∧
      (es.foldl (phase2Step mm um labelKeys) acc).deleteHrefMap =
        acc.deleteHrefMap := by
  intro es
  induction es with
  | nil => intro acc h; exact ⟨rfl, rfl⟩
  | cons e es ih =>
    intro acc h
    have he := h e (List.mem_cons_self e es)
    have hrest := fun e' he' => h e' (List.mem_cons_of_mem e he')
    rw [List.foldl_cons]
    cases hpa : processUnmanaged mm um labelKeys e with
    | upsert row =>
      rw [phase2Step_of_upsert mm um labelKeys acc e row hpa]
      exact ih _ hrest
    | delete row f hr =>
      rw [hpa] at he
      simp [UnmanagedAction.isDelete] at he
    | keep =>
      rw [phase2Step_of_keep mm um labelKeys acc e hpa]
      exact ih _ hrest

theorem phase2_foldl_importCsv (mm um : List (String × ReplicateWkld))
    (labelKeys : List String) :
    ∀ (es : List ReplicateWkld) (acc : RunOutput),
      ∃ ext, (es.foldl (phase2Step mm um labelKeys) acc).importCsv =
          acc.importCsv ++ ext ∧
        ∀ row ∈ ext, ∃ e ∈ es,
          processUnmanaged mm um labelKeys e = .upsert row := by
  intro es
  induction es with
  | nil => intro acc; exact ⟨[], by simp, by simp⟩
  | cons e es ih =>
    intro acc
    rw [List.foldl_cons]
    cases hpa : processUnmanaged mm um labelKeys e with
    | upsert row =>
      rw [phase2Step_of_upsert mm um labelKeys acc e row hpa]
      rcases ih { acc with importCsv := acc.importCsv ++ [row] } with ⟨ext, heq, hchar⟩
      refine ⟨row :: ext, by simpa using heq, fun r hr => ?_⟩
      rcases List.mem_cons.mp hr with rfl | hr'
      · exact ⟨e, List.mem_cons_self e es, hpa⟩
      · rcases hchar r hr' with ⟨e', he', hpe'⟩
        exact ⟨e', List.mem_cons_of_mem e he', hpe'⟩
    | delete row f hr =>
      rw [phase2Step_of_delete mm um labelKeys acc e row f hr hpa]
      rcases ih _ with ⟨ext, heq, hchar⟩
      refine ⟨ext, heq, fun r hr' => ?_⟩
      rcases hchar r hr' with ⟨e', he', hpe'⟩
      exact ⟨e', List.mem_cons_of_mem e he', hpe'⟩
    | keep =>
      rw [phase2Step_of_keep mm um labelKeys acc e hpa]
      rcases ih acc with ⟨ext, heq, hchar⟩
      refine ⟨ext, heq, fun r hr' => ?_⟩
      rcases hchar r hr' with ⟨e', he', hpe'⟩
      exact ⟨e', List.mem_cons_of_mem e he', hpe'⟩

theorem phase2_foldl_deleteCsv (mm um : List (String × ReplicateWkld))
    (labelKeys : List String) :
    ∀ (es : List ReplicateWkld) (acc : RunOutput),
      ∃ ext, (es.foldl (phase2Step mm um labelKeys) acc).deleteCsv =
          acc.deleteCsv ++ ext ∧
        ∀ row ∈ ext, ∃ e ∈ es, ∃ f hr,
          processUnmanaged mm um labelKeys e = .delete row f hr := by
  intro es
  induction es with
  | nil => intro acc; exact ⟨[], by simp, by simp⟩
  | cons e es ih =>
    intro acc
    rw [List.foldl_cons]
    cases hpa : processUnmanaged mm um labelKeys e with
    | upsert row =>
      rw [phase2Step_of_upsert mm um labelKeys acc e row hpa]
      rcases ih _ with ⟨ext, heq, hchar⟩
      refine ⟨ext, heq, fun r hr' => ?_⟩
      rcases hchar r hr' with ⟨e', he', hpe'⟩
      exact ⟨e', List.mem_cons_of_mem e he', hpe'⟩
    | delete row f hr =>
      obtain ⟨ext, heq, hchar⟩ := ih (phase2Step mm um labelKeys acc e)
      have hstep : (phase2Step mm um labelKeys acc e).deleteCsv =
          acc.deleteCsv ++ [row] := by
        rw [phase2Step_of_delete mm um labelKeys acc e row f hr hpa]
      rw [hstep] at heq
      refine ⟨row :: ext, by simpa using heq, fun r hr' => ?_⟩
      rcases List.mem_cons.mp hr' with rfl | hr''
      · exact ⟨e, List.mem_cons_self e es, f, hr, hpa⟩
      · rcases hchar r hr'' with ⟨e', he', f', hr2, hpe'⟩
        exact ⟨e', List.mem_cons_of_mem e he', f', hr2, hpe'⟩
    | keep =>
      rw [phase2Step_of_keep mm um labelKeys acc e hpa]
      rcases ih acc with ⟨ext, heq, hchar⟩
      refine ⟨ext, heq, fun r hr' => ?_⟩
      rcases hchar r hr' with ⟨e', he', hpe'⟩
      exact ⟨e', List.mem_cons_of_mem e he', hpe'⟩

/- ------------------------------------------------------------------ -/
/- Delete-href map lemmas. -/

theorem lookup_map_keyPreserving (k v : String) :
    ∀ (m : List (String × List String)) (k' : String),
      (((m.map (fun e => if e.1 == k then (e.1, e.2 ++ [v]) else e)).lookup k').isSome) =
        ((m.lookup k').isSome) := by
  intro m
  induction m with
  | nil => intro k'; rfl
  | cons e m ih =>
    intro k'
    by_cases he : e.1 == k
    · simp only [List.map_cons, if_pos he]
      rcases e with ⟨ek, ev⟩
      by_cases hk : k' == ek
      · simp [List.lookup_cons, hk]
      · simp only [List.lookup_cons]
        simp only [Bool.not_eq_true] at hk
        rw [hk]
        exact ih k'
    · simp only [List.map_cons, if_neg he]
      rcases e with ⟨ek, ev⟩
      by_cases hk : k' == ek
      · simp [List.lookup_cons, hk]
      · simp only [List.lookup_cons]
        simp only [Bool.not_eq_true] at hk
        rw [hk]
        exact ih k'

theorem lookup_append_single_isSome (k : String) (v : List String) :
    ∀ (m : List (String × List String)) (k' : String),
      (((m ++ [(k, v)]).lookup k').isSome = true) ↔
        (k' = k ∨ (m.lookup k').isSome = true) := by
  intro m
  induction m with
  | nil =>
    intro k'
    by_cases hk : k' == k
    · simp [List.lookup_cons, hk]
      exact eq_of_beq hk
    · simp only [List.nil_append, List.lookup_cons, hk, List.lookup_nil]
      constructor
      · intro hs; simp at hs
      · rintro (rfl | hs)
        · simp at hk
        · simp at hs
  | cons e m ih =>
    intro k'
    rcases e with ⟨ek, ev⟩
    by_cases hk : k' == ek
    · simp [List.lookup_cons, hk]
    · simp only [List.cons_append, List.lookup_cons, hk]
      exact ih k'

theorem hrefMapAppend_lookup_isSome (m : List (String × List String))
    (k v k' : String) :
    (((hrefMapAppend m k v).lookup k').isSome = true) ↔
      (k' = k ∨ (m.lookup k').isSome = true) := by
  unfold hrefMapAppend
  by_cases hs : (m.lookup k).isSome = true
  · rw [if_pos hs, lookup_map_keyPreserving]
    constructor
    · exact Or.inr
    · rintro (rfl | h)
      · exact hs
      · exact h
  · rw [if_neg hs]
    exact lookup_append_single_isSome k [v] m k'

theorem lookup_nilPairs_getD (ks : List String) (k : String) :
    (((ks.map (fun f => (f, ([] : List String)))).lookup k).getD []) = [] := by
  induction ks with
  | nil => rfl
  | cons f ks ih =>
    by_cases hk : k == f
    · simp [List.lookup_cons, hk]
    · simp only [List.map_cons, List.lookup_cons, hk]
      exact ih

theorem lookup_nilPairs_isSome (ks : List String) (k : String) :
    (((ks.map (fun f => (f, ([] : List String)))).lookup k).isSome = true) ↔
      k ∈ ks := by
  induction ks with
  | nil => simp
  | cons f ks ih =>
    by_cases hk : k == f
    · simp [List.lookup_cons, hk]
      exact Or.inl (eq_of_beq hk)
    · simp only [List.map_cons, List.lookup_cons, hk]
      rw [ih]
      constructor
      · exact fun h => List.mem_cons_of_mem f h
      · intro h
        rcases List.mem_cons.mp h with rfl | h'
        · simp at hk
        · exact h'

theorem phase2_foldl_hrefMap_keys (mm um : List (String × ReplicateWkld))
    (labelKeys : List String) :
    ∀ (es : List ReplicateWkld) (acc : RunOutput) (k : String),
      (((es.foldl (phase2Step mm um labelKeys) acc).deleteHrefMap.lookup k).isSome = true) →
      ((acc.deleteHrefMap.lookup k).isSome = true ∨ ∃ e ∈ es, k = e.pce.fqdn) := by
  intro es
  induction es with
  | nil => intro acc k h; exact Or.inl h
  | cons e es ih =>
    intro acc k h
    rw [List.foldl_cons] at h
    rcases ih _ k h with h' | ⟨e', he', hk⟩
    · cases hpa : processUnmanaged mm um labelKeys e with
      | upsert row =>
        rw [phase2Step_of_upsert mm um labelKeys acc e row hpa] at h'
        exact Or.inl h'
      | delete row f hr =>
        rw [phase2Step_of_delete mm um labelKeys acc e row f hr hpa] at h'
        simp only at h'
        rcases (hrefMapAppend_lookup_isSome acc.deleteHrefMap f hr k).mp h' with heq | h''
        · obtain ⟨_, hf, _⟩ := processUnmanaged_delete_char mm um labelKeys e row f hr hpa
          exact Or.inr ⟨e, List.mem_cons_self e es, heq.trans hf⟩
        · exact Or.inl h''
      | keep =>
        rw [phase2Step_of_keep mm um labelKeys acc e hpa] at h'
        exact Or.inl h'
    · exact Or.inr ⟨e', List.mem_cons_of_mem e he', hk⟩

/- ------------------------------------------------------------------ -/
/- Whole-run shape lemmas. -/

theorem runReconcileT_importCsv_shape (pces : List PCE) (skip : List String)
    (labelKeys : List String) :
    ∃ ext, (runReconcileT pces skip labelKeys).importCsv =
        headerRow labelKeys ::
          ((collectAllT pces skip labelKeys).importRows ++ ext) ∧
      ∀ row ∈ ext, ∃ e ∈ (collectAllT pces skip labelKeys).unmanaged.map Prod.snd,
        processUnmanaged (collectAllT pces skip labelKeys).managed
          (collectAllT pces skip labelKeys).unmanaged labelKeys e = .upsert row := by
  unfold runReconcileT
  obtain ⟨ext, heq, hchar⟩ := phase2_foldl_importCsv
    (collectAllT pces skip labelKeys).managed
    (collectAllT pces skip labelKeys).unmanaged labelKeys
    ((collectAllT pces skip labelKeys).unmanaged.map Prod.snd)
    (RunOutput.mk (headerRow labelKeys :: (collectAllT pces skip labelKeys).importRows)
      [deleteHeader]
      ((collectAllT pces skip labelKeys).deleteHrefKeys.map
        (fun f => (f, ([] : List String)))))
  exact ⟨ext, by simpa using heq, hchar⟩

theorem runReconcileT_deleteCsv_shape (pces : List PCE) (skip : List String)
    (labelKeys : List String) :
    ∃ ext, (runReconcileT pces skip labelKeys).deleteCsv =
        deleteHeader :: ext ∧
      ∀ row ∈ ext, ∃ e ∈ (collectAllT pces skip labelKeys).unmanaged.map Prod.snd,
        ∃ f hr, processUnmanaged (collectAllT pces skip labelKeys).managed
          (collectAllT pces skip labelKeys).unmanaged labelKeys e =
            .delete row f hr := by
  unfold runReconcileT
  obtain ⟨ext, heq, hchar⟩ := phase2_foldl_deleteCsv
    (collectAllT pces skip labelKeys).managed
    (collectAllT pces skip labelKeys).unmanaged labelKeys
    ((collectAllT pces skip labelKeys).unmanaged.map Prod.snd)
    (RunOutput.mk (headerRow labelKeys :: (collectAllT pces skip labelKeys).importRows)
      [deleteHeader]
      ((collectAllT pces skip labelKeys).deleteHrefKeys.map
        (fun f => (f, ([] : List String)))))
  exact ⟨ext, by simpa using heq, hchar⟩

theorem runReconcileT_hrefMap_keys (pces : List PCE) (skip : List String)
    (labelKeys : List String) (k : String)
    (h : (((runReconcileT pces skip labelKeys).deleteHrefMap.lookup k).isSome = true)) :
    k ∈ (collectAllT pces skip labelKeys).deleteHrefKeys ∨
      ∃ e ∈ (collectAllT pces skip labelKeys).unmanaged.map Prod.snd,
        k = e.pce.fqdn := by
  unfold runReconcileT at h
  rcases phase2_foldl_hrefMap_keys (collectAllT pces skip labelKeys).managed
    (collectAllT pces skip labelKeys).unmanaged labelKeys
    ((collectAllT pces skip labelKeys).unmanaged.map Prod.snd) _ k h with h' | h'
  · simp only at h'
    exact Or.inl ((lookup_nilPairs_isSome _ k).mp h')
  · exact Or.inr h'

/- ------------------------------------------------------------------ -/
/- C8. -/

/-- C8: the upsert CSV header row is exactly source, hostname, description,
one column per discovered label key, interfaces, externalDataSet,
externalDataReference; and every emitted upsert data row has exactly
3 + |labelKeys| + 3 columns. -/
theorem c8_csv_shape (pces : List PCE) (skip labelKeys : List String)
    (out : RunOutput) (h : runReconcile pces skip labelKeys = .ok out) :
    out.importCsv.headD [] =
      ["source", "hostname", "description"] ++ labelKeys ++
        ["interfaces", "externalDataSet", "externalDataReference"] ∧
    ∀ row ∈ out.importCsv.drop 1, row.length = 3 + labelKeys.length + 3 := by
  have hout := runReconcile_ok pces skip labelKeys out h
  subst hout
  obtain ⟨ext, heq, hchar⟩ := runReconcileT_importCsv_shape pces skip labelKeys
  rw [heq]
  refine ⟨rfl, fun row hrow => ?_⟩
  simp only [List.drop_succ_cons, List.drop_zero] at hrow
  rcases List.mem_append.mp hrow with hrow' | hrow'
  · obtain ⟨p, hp, hskip, w, hw, hmode, hrow2⟩ :=
      collectAllT_importRows_mem pces skip labelKeys row hrow'
    subst hrow2
    unfold managedRow
    rw [mkRow_length, labelSlice_length]
  · obtain ⟨e, he, hpe⟩ := hchar row hrow'
    rcases processUnmanaged_upsert_char _ _ _ _ _ hpe with ⟨_, hrow2⟩ | ⟨_, _, hrow2⟩
    · subst hrow2
      unfold unmanagedRow
      rw [mkRow_length, labelSlice_length]
    · subst hrow2
      unfold unmanagedRow
      rw [mkRow_length, labelSlice_length]

/-- Witness for C8 at a concrete run over the instances C and D. -/
theorem c8_witness :
    runReconcile [pceC, pceD] [] keys4 =
      .ok (runReconcileT [pceC, pceD] [] keys4) ∧
    (runReconcileT [pceC, pceD] [] keys4).importCsv.headD [] =
      ["source", "hostname", "description"] ++ keys4 ++
        ["interfaces", "externalDataSet", "externalDataReference"] ∧
    ∀ row ∈ (runReconcileT [pceC, pceD] [] keys4).importCsv.drop 1,
      row.length = 3 + keys4.length + 3 :=
  ⟨rfl, (c8_csv_shape [pceC, pceD] [] keys4 _ rfl).1,
    (c8_csv_shape [pceC, pceD] [] keys4 _ rfl).2⟩

/- ------------------------------------------------------------------ -/
/- C9 amended. -/

theorem runDeletes_no_write (api : String → String → Except String Nat)
    (f : String) :
    ∀ (hs : List String), ∀ e ∈ (runDeletesForPce api f hs).1,
      e.isWrite = false := by
  intro hs
  induction hs with
  | nil => intro e he; simp [runDeletesForPce] at he
  | cons h rest ih =>
    intro e he
    unfold runDeletesForPce at he
    cases hax : api f h with
    | error msg =>
      rw [hax] at he
      rcases List.mem_cons.mp he with rfl | he'
      · rfl
      · rcases List.mem_cons.mp he' with rfl | he''
        · rfl
        · simp at he''
    | ok code =>
      rw [hax] at he
      rcases List.mem_cons.mp he with rfl | he'
      · rfl
      · rcases List.mem_cons.mp he' with rfl | he''
        · rfl
        · exact ih e he''

theorem applyPhase_no_write (api : String → String → Except String Nat) :
    ∀ (pces : List PCE) (out : RunOutput), ∀ e ∈ applyPhase api pces out,
      e.isWrite = false := by
  intro pces
  induction pces with
  | nil => intro out e he; simp [applyPhase] at he
  | cons p rest ih =>
    intro out e he
    unfold applyPhase at he
    have himp : ∀ e' ∈ (if out.importCsv.length > 1 then
        [Effect.importRun p.friendlyName p.fqdn out.importCsv] else []),
        Effect.isWrite e' = false := by
      intro e' he'
      split at he'
      · rcases List.mem_singleton.mp he' with rfl
        rfl
      · simp at he'
    by_cases hd : out.deleteCsv.length > 1
    · rw [if_pos hd] at he
      by_cases hab : (runDeletesForPce api p.fqdn
          ((out.deleteHrefMap.lookup p.fqdn).getD [])).2 = true
      · rw [if_pos hab] at he
        rcases List.mem_append.mp he with he' | he'
        · exact himp e he'
        · exact runDeletes_no_write api p.fqdn _ e he'
      · rw [if_neg hab] at he
        rcases List.mem_append.mp he with he' | he'
        · rcases List.mem_append.mp he' with he'' | he''
          · exact himp e he''
          · exact runDeletes_no_write api p.fqdn _ e he''
        · exact ih out e he'
    · rw [if_neg hd] at he
      rcases List.mem_append.mp he with he' | he'
      · exact himp e he'
      · exact ih out e he'

theorem writeEffects_all_write (out : RunOutput) (ts oname : String) :
    ∀ e ∈ writeEffects out ts oname, e.isWrite = true := by
  intro e he
  unfold writeEffects at he
  rcases List.mem_append.mp he with he' | he'
  · split at he'
    · rcases List.mem_singleton.mp he' with rfl
      rfl
    · simp at he'
  · split at he'
    · rcases List.mem_singleton.mp he' with rfl
      rfl
    · simp at he'

theorem filter_eq_self_of_all {α : Type} (p : α → Bool) :
    ∀ (l : List α), (∀ x ∈ l, p x = true) → l.filter p = l := by
  intro l
  induction l with
  | nil => intro _; rfl
  | cons x l ih =>
    intro h
    rw [List.filter_cons, if_pos (h x (List.mem_cons_self x l)),
      ih (fun y hy => h y (List.mem_cons_of_mem x hy))]

theorem filter_eq_nil_of_none {α : Type} (p : α → Bool) :
    ∀ (l : List α), (∀ x ∈ l, p x = false) → l.filter p = [] := by
  intro l
  induction l with
  | nil => intro _; rfl
  | cons x l ih =>
    intro h
    rw [List.filter_cons]
    have hx := h x (List.mem_cons_self x l)
    rw [hx]
    simp only [Bool.false_eq_true, if_false]
    exact ih (fun y hy => h y (List.mem_cons_of_mem x hy))

/-- C9 amended: in every run, regardless of whether execution is enabled, the
file-write effects are exactly the write of each batch that holds at least
one data row beyond its header — a header-only batch is not written, and the
apply phase never writes a file. -/
theorem c9_amended_writes (api : String → String → Except String Nat)
    (pces : List PCE) (skip labelKeys : List String) (updatePCE noPrompt : Bool)
    (answer ts oname : String) (out : RunOutput)
    (h : runReconcile pces skip labelKeys = .ok out) :
    ∃ effs, fullRunEffects api pces skip labelKeys updatePCE noPrompt answer ts oname =
        .ok effs ∧
      effs.filter Effect.isWrite = writeEffects out ts oname ∧
      (out.importCsv.length > 1 →
        Effect.writeFile (importFileName ts oname) out.importCsv ∈ effs) ∧
      (out.deleteCsv.length > 1 →
        Effect.writeFile (deleteFileName ts oname) out.deleteCsv ∈ effs) ∧
      (¬ out.importCsv.length > 1 →
        Effect.writeFile (importFileName ts oname) out.importCsv ∉ effs) ∧
      (¬ out.deleteCsv.length > 1 →
        Effect.writeFile (deleteFileName ts oname) out.deleteCsv ∉ effs) := by
  refine ⟨writeEffects out ts oname ++
    (if mutationGate updatePCE noPrompt answer then applyPhase api pces out else []),
    ?_, ?_, ?_, ?_, ?_, ?_⟩
  · unfold fullRunEffects
    rw [h]
    rfl
  · rw [List.filter_append,
      filter_eq_self_of_all Effect.isWrite _ (writeEffects_all_write out ts oname)]
    have hnil : (if mutationGate updatePCE noPrompt answer then
        applyPhase api pces out else []).filter Effect.isWrite = [] := by
      split
      · exact filter_eq_nil_of_none _ _ (applyPhase_no_write api pces out)
      · rfl
    rw [hnil, List.append_nil]
  · intro hlen
    apply List.mem_append.mpr
    left
    unfold writeEffects
    apply List.mem_append.mpr
    left
    rw [if_pos hlen]
    exact List.mem_singleton.mpr rfl
  · intro hlen
    apply List.mem_append.mpr
    left
    unfold writeEffects
    apply List.mem_append.mpr
    right
    rw [if_pos hlen]
    exact List.mem_singleton.mpr rfl
  · intro hlen hmem
    have hw : Effect.isWrite (Effect.writeFile (importFileName ts oname) out.importCsv) = true := rfl
    rcases List.mem_append.mp hmem with hm | hm
    · unfold writeEffects at hm
      rcases List.mem_append.mp hm with hm' | hm'
      · rw [if_neg hlen] at hm'
        simp at hm'
      · split at hm'
        · rcases List.mem_singleton.mp hm' with heq
          have himp := congrArg (fun e => match e with
            | Effect.writeFile _ rows => rows
            | _ => []) heq
          simp only at himp
          obtain ⟨ext, hieq, _⟩ := runReconcileT_importCsv_shape pces skip labelKeys
          obtain ⟨extd, hdeq, _⟩ := runReconcileT_deleteCsv_shape pces skip labelKeys
          have hout := runReconcile_ok pces skip labelKeys out h
          rw [hout, hieq, hdeq] at himp
          have hhead := congrArg (fun l => l.headD ([] : List String)) himp
          simp only [List.headD_cons] at hhead
          have : "source" = "href" := by
            have := congrArg (fun l => l.headD "") hhead
            simpa [headerRow, deleteHeader] using this
          exact absurd this (by decide)
        · simp at hm'
    · have : Effect.isWrite (Effect.writeFile (importFileName ts oname) out.importCsv) = false := by
        split at hm
        · exact applyPhase_no_write api pces out _ hm
        · simp at hm
      rw [hw] at this
      exact absurd this (by decide)
  · intro hlen hmem
    rcases List.mem_append.mp hmem with hm | hm
    · unfold writeEffects at hm
      rcases List.mem_append.mp hm with hm' | hm'
      · split at hm'
        · rcases List.mem_singleton.mp hm' with heq
          have himp := congrArg (fun e => match e with
            | Effect.writeFile _ rows => rows
            | _ => []) heq
          simp only at himp
          obtain ⟨ext, hieq, _⟩ := runReconcileT_importCsv_shape pces skip labelKeys
          obtain ⟨extd, hdeq, _⟩ := runReconcileT_deleteCsv_shape pces skip labelKeys
          have hout := runReconcile_ok pces skip labelKeys out h
          rw [hout, hieq, hdeq] at himp
          have hhead := congrArg (fun l => l.headD ([] : List String)) himp
          simp only [List.headD_cons] at hhead
          have : "href" = "source" := by
            have := congrArg (fun l => l.headD "") hhead
            simpa [headerRow, deleteHeader] using this
          exact absurd this (by decide)
        · simp at hm'
      · rw [if_neg hlen] at hm'
        simp at hm'
    · have hw : Effect.isWrite (Effect.writeFile (deleteFileName ts oname) out.deleteCsv) = true := rfl
      have : Effect.isWrite (Effect.writeFile (deleteFileName ts oname) out.deleteCsv) = false := by
        split at hm
        · exact applyPhase_no_write api pces out _ hm
        · simp at hm
      rw [hw] at this
      exact absurd this (by decide)

/-- Witness for C9 amended at a concrete run: instances A and B produce a
delete batch with one data row and an import batch with only the header; the
delete file is written, the import file is not. -/
theorem c9_amended_witness :
    runReconcile [pceA, pceB] [] keys4 =
      .ok (runReconcileT [pceA, pceB] [] keys4) ∧
    ∃ effs, fullRunEffects okApi [pceA, pceB] [] keys4 false false "" "t" "" =
        .ok effs ∧
      effs.filter Effect.isWrite =
        writeEffects (runReconcileT [pceA, pceB] [] keys4) "t" "" ∧
      ((runReconcileT [pceA, pceB] [] keys4).deleteCsv.length > 1 →
        Effect.writeFile (deleteFileName "t" "")
          (runReconcileT [pceA, pceB] [] keys4).deleteCsv ∈ effs) := by
  refine ⟨rfl, ?_⟩
  obtain ⟨effs, h1, h2, h3, h4, h5, h6⟩ := c9_amended_writes okApi [pceA, pceB] []
    keys4 false false "" "t" "" (runReconcileT [pceA, pceB] [] keys4) rfl
  exact ⟨effs, h1, h2, h4⟩

/- ------------------------------------------------------------------ -/
/- C10. -/

theorem runDeletes_attempt_fqdn (api : String → String → Except String Nat)
    (f f' h' : String) :
    ∀ (hs : List String),
      Effect.deleteAttempt f' h' ∈ (runDeletesForPce api f hs).1 → f' = f := by
  intro hs
  induction hs with
  | nil => intro h; simp [runDeletesForPce] at h
  | cons x rest ih =>
    intro h
    unfold runDeletesForPce at h
    cases hax : api f x with
    | error msg =>
      rw [hax] at h
      rcases List.mem_cons.mp h with heq | h'
      · cases heq; rfl
      · rcases List.mem_cons.mp h' with heq | h''
        · cases heq
        · simp at h''
    | ok code =>
      rw [hax] at h
      rcases List.mem_cons.mp h with heq | h'
      · cases heq; rfl
      · rcases List.mem_cons.mp h' with heq | h''
        · cases heq
        · exact ih h''

theorem applyPhase_attempt_char (api : String → String → Except String Nat)
    (f h2 : String) :
    ∀ (pces : List PCE) (out : RunOutput),
      Effect.deleteAttempt f h2 ∈ applyPhase api pces out →
      ∃ q ∈ pces, f = q.fqdn ∧
        (out.deleteHrefMap.lookup q.fqdn).getD [] ≠ [] := by
  intro pces
  induction pces with
  | nil => intro out h; simp [applyPhase] at h
  | cons p rest ih =>
    intro out h
    unfold applyPhase at h
    have himp : Effect.deleteAttempt f h2 ∉ (if out.importCsv.length > 1 then
        [Effect.importRun p.friendlyName p.fqdn out.importCsv] else []) := by
      split <;> simp
    have hhd : ∀ hs, Effect.deleteAttempt f h2 ∈ (runDeletesForPce api p.fqdn hs).1 →
        hs ≠ [] := by
      intro hs hmem hnil
      subst hnil
      simp [runDeletesForPce] at hmem
    by_cases hd : out.deleteCsv.length > 1
    · rw [if_pos hd] at h
      by_cases hab : (runDeletesForPce api p.fqdn
          ((out.deleteHrefMap.lookup p.fqdn).getD [])).2 = true
      · rw [if_pos hab] at h
        rcases List.mem_append.mp h with h' | h'
        · exact absurd h' himp
        · exact ⟨p, List.mem_cons_self p rest,
            runDeletes_attempt_fqdn api p.fqdn f h2 _ h', hhd _ h'⟩
      · rw [if_neg hab] at h
        rcases List.mem_append.mp h with h' | h'
        · rcases List.mem_append.mp h' with h'' | h''
          · exact absurd h'' himp
          · exact ⟨p, List.mem_cons_self p rest,
              runDeletes_attempt_fqdn api p.fqdn f h2 _ h'', hhd _ h''⟩
        · obtain ⟨q, hq, hfe, hne⟩ := ih out h'
          exact ⟨q, List.mem_cons_of_mem p hq, hfe, hne⟩
    · rw [if_neg hd] at h
      rcases List.mem_append.mp h with h' | h'
      · exact absurd h' himp
      · obtain ⟨q, hq, hfe, hne⟩ := ih out h'
        exact ⟨q, List.mem_cons_of_mem p hq, hfe, hne⟩

theorem runDeletes_all_ok_no_abort (api : String → String → Except String Nat)
    (f : String) :
    ∀ (hs : List String), (∀ x ∈ hs, (api f x).isOk = true) →
      (runDeletesForPce api f hs).2 = false := by
  intro hs
  induction hs with
  | nil => intro _; rfl
  | cons x rest ih =>
    intro h
    have hx := h x (List.mem_cons_self x rest)
    unfold runDeletesForPce
    cases hax : api f x with
    | error msg => rw [hax] at hx; simp [Except.isOk, Except.toBool] at hx
    | ok code =>
      simp only
      exact ih (fun y hy => h y (List.mem_cons_of_mem x hy))

theorem applyPhase_importRun_mem (api : String → String → Except String Nat)
    (hapi : ∀ f x, (api f x).isOk = true) :
    ∀ (pces : List PCE) (out : RunOutput) (p : PCE), p ∈ pces →
      out.importCsv.length > 1 →
      Effect.importRun p.friendlyName p.fqdn out.importCsv ∈
        applyPhase api pces out := by
  intro pces
  induction pces with
  | nil => intro out p h; simp at h
  | cons q rest ih =>
    intro out p hp hlen
    unfold applyPhase
    have hnoab : (runDeletesForPce api q.fqdn
        ((out.deleteHrefMap.lookup q.fqdn).getD [])).2 = false :=
      runDeletes_all_ok_no_abort api q.fqdn _ (fun y _ => hapi q.fqdn y)
    rcases List.mem_cons.mp hp with rfl | hp'
    · by_cases hd : out.deleteCsv.length > 1
      · rw [if_pos hd, if_neg (by rw [hnoab]; simp)]
        apply List.mem_append.mpr
        left
        apply List.mem_append.mpr
        left
        rw [if_pos hlen]
        exact List.mem_singleton.mpr rfl
      · rw [if_neg hd]
        apply List.mem_append.mpr
        left
        rw [if_pos hlen]
        exact List.mem_singleton.mpr rfl
    · by_cases hd : out.deleteCsv.length > 1
      · rw [if_pos hd, if_neg (by rw [hnoab]; simp)]
        apply List.mem_append.mpr
        right
        exact ih out p hp' hlen
      · rw [if_neg hd]
        apply List.mem_append.mpr
        right
        exact ih out p hp' hlen

/-- C10: a skip-source instance (with its own address, not shared with any
collected instance) never has a delete scheduled for it or applied to it — no
delete CSV row names its FQDN, its delete-href slice is empty, and no delete
API call targets it — while the upsert import still runs against it whenever
the import batch has data rows (and the delete API never fails, so the apply
phase reaches it). -/
theorem c10_skip_source_never_deleted (api : String → String → Except String Nat)
    (pces : List PCE) (skip labelKeys : List String) (p : PCE) (out : RunOutput)
    (hp : p ∈ pces) (hskip : skip.contains p.friendlyName = true)
    (hfqdn : ∀ q ∈ pces, skip.contains q.friendlyName = false → q.fqdn ≠ p.fqdn)
    (hapi : ∀ f x, (api f x).isOk = true)
    (h : runReconcile pces skip labelKeys = .ok out) :
    (∀ row ∈ out.deleteCsv.drop 1, row.getD 1 "" ≠ p.fqdn) ∧
    (out.deleteHrefMap.lookup p.fqdn).getD [] = [] ∧
    (∀ f h2, Effect.deleteAttempt f h2 ∈ applyPhase api pces out → f ≠ p.fqdn) ∧
    (out.importCsv.length > 1 →
      Effect.importRun p.friendlyName p.fqdn out.importCsv ∈
        applyPhase api pces out) := by
  have hout := runReconcile_ok pces skip labelKeys out h
  subst hout
  have hval : ∀ e ∈ (collectAllT pces skip labelKeys).unmanaged.map Prod.snd,
      e.pce.fqdn ≠ p.fqdn := by
    intro e he
    obtain ⟨kv, hkv, hsnd⟩ := List.mem_map.mp he
    obtain ⟨q, hq, hqskip, w, hw, hmode, hkveq⟩ :=
      collectAllT_unmanaged_mem pces skip labelKeys kv hkv
    have : e = ⟨q, w⟩ := by rw [← hsnd, hkveq]
    rw [this]
    exact hfqdn q hq hqskip
  have hrows : ∀ row ∈ (runReconcileT pces skip labelKeys).deleteCsv.drop 1,
      row.getD 1 "" ≠ p.fqdn := by
    obtain ⟨ext, heq, hchar⟩ := runReconcileT_deleteCsv_shape pces skip labelKeys
    rw [heq]
    intro row hrow
    simp only [List.drop_succ_cons, List.drop_zero] at hrow
    obtain ⟨e, he, f, hr, hpe⟩ := hchar row hrow
    obtain ⟨hrow2, _, _⟩ := processUnmanaged_delete_char _ _ _ _ _ _ _ hpe
    subst hrow2
    simpa using hval e he
  have hlookup : ((runReconcileT pces skip labelKeys).deleteHrefMap.lookup p.fqdn) = none := by
    cases hl : (runReconcileT pces skip labelKeys).deleteHrefMap.lookup p.fqdn with
    | none => rfl
    | some v =>
      exfalso
      have hs : (((runReconcileT pces skip labelKeys).deleteHrefMap.lookup p.fqdn).isSome = true) := by
        rw [hl]; rfl
      rcases runReconcileT_hrefMap_keys pces skip labelKeys p.fqdn hs with hk | hk
      · obtain ⟨q, hq, hqskip, hfe⟩ :=
          collectAllT_deleteHrefKeys_mem pces skip labelKeys p.fqdn hk
        exact hfqdn q hq hqskip hfe.symm
      · obtain ⟨e, he, hfe⟩ := hk
        exact hval e he hfe.symm
  have hbind : ((runReconcileT pces skip labelKeys).deleteHrefMap.lookup p.fqdn).getD [] = [] := by
    rw [hlookup]; rfl
  refine ⟨hrows, hbind, fun f h2 hmem hfp => ?_, fun hlen =>
    applyPhase_importRun_mem api hapi pces _ p hp hlen⟩
  obtain ⟨q, hq, hfe, hne⟩ := applyPhase_attempt_char api f h2 pces _ hmem
  apply hne
  rw [← hfe, hfp]
  exact hbind

/-- Witness for C10 at a concrete input: instance S is skipped as a source;
the run over C and S schedules no delete for S and still imports into S. -/
theorem c10_witness :
    pceS ∈ [pceC, pceS] ∧
    (["S"] : List String).contains pceS.friendlyName = true ∧
    runReconcile [pceC, pceS] ["S"] keys4 =
      .ok (runReconcileT [pceC, pceS] ["S"] keys4) ∧
    ((runReconcileT [pceC, pceS] ["S"] keys4).deleteHrefMap.lookup pceS.fqdn).getD [] = [] ∧
    ((runReconcileT [pceC, pceS] ["S"] keys4).importCsv.length > 1 →
      Effect.importRun pceS.friendlyName pceS.fqdn
        (runReconcileT [pceC, pceS] ["S"] keys4).importCsv ∈
        applyPhase okApi [pceC, pceS] (runReconcileT [pceC, pceS] ["S"] keys4)) := by
  have hc := c10_skip_source_never_deleted okApi [pceC, pceS] ["S"] keys4 pceS
    (runReconcileT [pceC, pceS] ["S"] keys4)
    (by decide) (by decide)
    (by
      intro q hq hqs
      fin_cases hq
      · decide
      · exfalso
        revert hqs
        decide)
    (fun f x => rfl) rfl
  exact ⟨by decide, by decide, rfl, hc.2.1, hc.2.2.2⟩

/- ------------------------------------------------------------------ -/
/- Import-collaborator model lemmas. -/

theorem importRowIntoPce_fqdn (labelKeys : List String)
    (freshHref : String → String → String) (p : PCE) (row : List String) :
    (importRowIntoPce labelKeys freshHref p row).fqdn = p.fqdn ∧
    (importRowIntoPce labelKeys freshHref p row).friendlyName = p.friendlyName := by
  unfold importRowIntoPce
  split <;> exact ⟨rfl, rfl⟩

theorem applyImport_fqdn (labelKeys : List String)
    (freshHref : String → String → String) :
    ∀ (rows : List (List String)) (p : PCE),
      (applyImport labelKeys freshHref rows p).fqdn = p.fqdn ∧
      (applyImport labelKeys freshHref rows p).friendlyName = p.friendlyName := by
  intro rows
  induction rows with
  | nil => intro p; exact ⟨rfl, rfl⟩
  | cons r rows ih =>
    intro p
    have h1 := importRowIntoPce_fqdn labelKeys freshHref p r
    have h2 := ih (importRowIntoPce labelKeys freshHref p r)
    exact ⟨h2.1.trans h1.1, h2.2.trans h1.2⟩

theorem applyDeletes_fqdn (hrefMap : List (String × List String)) (p : PCE) :
    (applyDeletes hrefMap p).fqdn = p.fqdn ∧
    (applyDeletes hrefMap p).friendlyName = p.friendlyName :=
  ⟨rfl, rfl⟩

theorem applyDeletes_empty (hrefMap : List (String × List String)) (p : PCE)
    (h : (hrefMap.lookup p.fqdn).getD [] = []) :
    applyDeletes hrefMap p = p := by
  unfold applyDeletes
  rw [h]
  have : (fun w => !(([] : List String).contains w.href)) = fun (_ : Workload) => true := by
    funext w
    rfl
  rw [this, List.filter_true]

theorem importRowIntoPce_preserve (labelKeys : List String)
    (freshHref : String → String → String) (p : PCE) (row : List String)
    (w0 : Workload) (hw0 : w0 ∈ p.workloadsSlice) :
    ∃ w ∈ (importRowIntoPce labelKeys freshHref p row).workloadsSlice,
      w.hostname = w0.hostname ∧ w.mode = w0.mode := by
  unfold importRowIntoPce
  split
  · by_cases hmatch : w0.hostname == rowHost row
    · refine ⟨importUpdate labelKeys row w0, ?_, rfl, rfl⟩
      simp only [List.mem_map]
      exact ⟨w0, hw0, by rw [if_pos hmatch]⟩
    · refine ⟨w0, ?_, rfl, rfl⟩
      simp only [List.mem_map]
      exact ⟨w0, hw0, by rw [if_neg (by simpa using hmatch)]⟩
  · exact ⟨w0, List.mem_append.mpr (Or.inl hw0), rfl, rfl⟩

theorem applyImport_preserve (labelKeys : List String)
    (freshHref : String → String → String) :
    ∀ (rows : List (List String)) (p : PCE) (w0 : Workload),
      w0 ∈ p.workloadsSlice →
      ∃ w ∈ (applyImport labelKeys freshHref rows p).workloadsSlice,
        w.hostname = w0.hostname ∧ w.mode = w0.mode := by
  intro rows
  induction rows with
  | nil => intro p w0 h; exact ⟨w0, h, rfl, rfl⟩
  | cons r rows ih =>
    intro p w0 h
    obtain ⟨w1, hw1, hh1, hm1⟩ := importRowIntoPce_preserve labelKeys freshHref p r w0 h
    obtain ⟨w, hw, hh, hm⟩ := ih (importRowIntoPce labelKeys freshHref p r) w1 hw1
    exact ⟨w, hw, hh.trans hh1, hm.trans hm1⟩

theorem importRowIntoPce_mem_char (labelKeys : List String)
    (freshHref : String → String → String) (p : PCE) (row : List String)
    (w : Workload)
    (hw : w ∈ (importRowIntoPce labelKeys freshHref p row).workloadsSlice) :
    (∃ w0 ∈ p.workloadsSlice, w.hostname = w0.hostname ∧ w.mode = w0.mode ∧
      w.externalDataSet = w0.externalDataSet ∧
      w.externalDataReference = w0.externalDataReference) ∨
    (rowHost row = w.hostname ∧
      w.externalDataSet = some (rowEds labelKeys row) ∧
      w.externalDataReference = some (rowEdr labelKeys row)) := by
  unfold importRowIntoPce at hw
  split at hw
  · simp only [List.mem_map] at hw
    obtain ⟨w0, hw0, heq⟩ := hw
    by_cases hmatch : w0.hostname == rowHost row
    · rw [if_pos hmatch] at heq
      right
      rw [← heq]
      exact ⟨(eq_of_beq hmatch).symm, rfl, rfl⟩
    · rw [if_neg (by simpa using hmatch)] at heq
      left
      exact ⟨w0, hw0, by rw [← heq], by rw [← heq], by rw [← heq], by rw [← heq]⟩
  · rcases List.mem_append.mp hw with hw' | hw'
    · left
      exact ⟨w, hw', rfl, rfl, rfl, rfl⟩
    · right
      rcases List.mem_singleton.mp hw' with rfl
      exact ⟨rfl, rfl, rfl⟩

theorem applyImport_mem_char (labelKeys : List String)
    (freshHref : String → String → String) :
    ∀ (rows : List (List String)) (p : PCE) (w : Workload),
      w ∈ (applyImport labelKeys freshHref rows p).workloadsSlice →
      (∃ w0 ∈ p.workloadsSlice, w.hostname = w0.hostname ∧ w.mode = w0.mode ∧
        w.externalDataSet = w0.externalDataSet ∧
        w.externalDataReference = w0.externalDataReference) ∨
      (∃ r ∈ rows, rowHost r = w.hostname ∧
        w.externalDataSet = some (rowEds labelKeys r) ∧
        w.externalDataReference = some (rowEdr labelKeys r)) := by
  intro rows
  induction rows with
  | nil =>
    intro p w hw
    exact Or.inl ⟨w, hw, rfl, rfl, rfl, rfl⟩
  | cons r rows ih =>
    intro p w hw
    rcases ih (importRowIntoPce labelKeys freshHref p r) w hw with
      ⟨w1, hw1, hh, hm, hds, hdr⟩ | ⟨r', hr', hchar⟩
    · rcases importRowIntoPce_mem_char labelKeys freshHref p r w1 hw1 with
        ⟨w0, hw0, hh0, hm0, hds0, hdr0⟩ | ⟨hhost, hds0, hdr0⟩
      · exact Or.inl ⟨w0, hw0, hh.trans hh0, hm.trans hm0,
          hds.trans hds0, hdr.trans hdr0⟩
      · exact Or.inr ⟨r, List.mem_cons_self r rows,
          hhost.trans hh.symm, hds.trans hds0, hdr.trans hdr0⟩
    · exact Or.inr ⟨r', List.mem_cons_of_mem r hr', hchar⟩

/- ------------------------------------------------------------------ -/
/- C2. -/

/-- Counterexample to C2 as stated: instance A holds a proxy of an unmanaged
workload of B which is itself a stale proxy of a vanished managed workload.
The first run deletes B's proxy; on the state the run produces (its upsert
batch is empty and its delete batch applied, no PCE-side change), the second
run schedules a delete for A's proxy — the delete batch of the second run is
not empty. -/
theorem c2_counterexample :
    runReconcile [pceA, pceB] [] keys4 =
      .ok (runReconcileT [pceA, pceB] [] keys4) ∧
    (runReconcileT [pceA, pceB] [] keys4).importCsv = [headerRow keys4] ∧
    runReconcile
      (postRunState keys4 freshEx (runReconcileT [pceA, pceB] [] keys4) [pceA, pceB])
      [] keys4 =
      .ok (runReconcileT
        (postRunState keys4 freshEx (runReconcileT [pceA, pceB] [] keys4) [pceA, pceB])
        [] keys4) ∧
    (runReconcileT
        (postRunState keys4 freshEx (runReconcileT [pceA, pceB] [] keys4) [pceA, pceB])
        [] keys4).deleteCsv =
      [deleteHeader, ["/w/u1", "a.pce", "A"]] := by
  exact ⟨rfl, rfl, rfl, rfl⟩

theorem processUnmanaged_isDelete_iff2 (mm um : List (String × ReplicateWkld))
    (labelKeys : List String) (pp : PCE) (ww : Workload) :
    (processUnmanaged mm um labelKeys ⟨pp, ww⟩).isDelete = true ↔
      ptrToStr ww.externalDataSet = "wkld-replicate" ∧
      pp.fqdn ≠ goSplitHead (ptrToStr ww.externalDataReference) usep ∧
      ((goContains (ptrToStr ww.externalDataReference) msep = true ∧
        containsKey mm
          (goSplitHead (ptrToStr ww.externalDataReference) msep ++ ww.hostname) = false) ∨
       (goContains (ptrToStr ww.externalDataReference) msep = false ∧
        goContains (ptrToStr ww.externalDataReference) usep = true ∧
        containsKey um
          (goSplitHead (ptrToStr ww.externalDataReference) usep ++ ww.hostname) = false)) :=
  processUnmanaged_isDelete_iff mm um labelKeys ⟨pp, ww⟩

theorem h5_entries (pces : List PCE) (skip labelKeys : List String)
    (h5 : ∀ p ∈ pces, skip.contains p.friendlyName = false →
      ∀ w ∈ p.workloadsSlice, w.getMode = "unmanaged" →
      (processUnmanaged (collectAllT pces skip labelKeys).managed
        (collectAllT pces skip labelKeys).unmanaged labelKeys ⟨p, w⟩).isDelete = false) :
    ∀ e ∈ (collectAllT pces skip labelKeys).unmanaged.map Prod.snd,
      (processUnmanaged (collectAllT pces skip labelKeys).managed
        (collectAllT pces skip labelKeys).unmanaged labelKeys e).isDelete = false := by
  intro e he
  obtain ⟨kv, hkv, hsnd⟩ := List.mem_map.mp he
  obtain ⟨q, hq, hqs, w, hw, hmode, hkveq⟩ :=
    collectAllT_unmanaged_mem pces skip labelKeys kv hkv
  have heq : e = ⟨q, w⟩ := by rw [← hsnd, hkveq]
  rw [heq]
  exact h5 q hq hqs w hw hmode

theorem runReconcileT_no_deletes (pces : List PCE) (skip labelKeys : List String)
    (hnd : ∀ e ∈ (collectAllT pces skip labelKeys).unmanaged.map Prod.snd,
      (processUnmanaged (collectAllT pces skip labelKeys).managed
        (collectAllT pces skip labelKeys).unmanaged labelKeys e).isDelete = false) :
    (runReconcileT pces skip labelKeys).deleteCsv = [deleteHeader] ∧
    ∀ k, (((runReconcileT pces skip labelKeys).deleteHrefMap.lookup k).getD []) = [] := by
  unfold runReconcileT
  obtain ⟨h1, h2⟩ := phase2_foldl_no_delete (collectAllT pces skip labelKeys).managed
    (collectAllT pces skip labelKeys).unmanaged labelKeys
    ((collectAllT pces skip labelKeys).unmanaged.map Prod.snd)
    (RunOutput.mk (headerRow labelKeys :: (collectAllT pces skip labelKeys).importRows)
      [deleteHeader]
      ((collectAllT pces skip labelKeys).deleteHrefKeys.map
        (fun f => (f, ([] : List String)))))
    hnd
  refine ⟨by simpa using h1, fun k => ?_⟩
  rw [h2]
  exact lookup_nilPairs_getD _ k

theorem managedRow_cells (p : PCE) (labelKeys : List String) (w : Workload) :
    rowHost (managedRow p labelKeys w) = w.hostname ∧
    rowEds labelKeys (managedRow p labelKeys w) = "wkld-replicate" ∧
    rowEdr labelKeys (managedRow p labelKeys w) = p.fqdn ++ msep ++ w.href := by
  unfold managedRow
  refine ⟨mkRow_host _ _ _ _ _ _ _, ?_, ?_⟩
  · exact (rowEds_mkRow labelKeys _ _ _ _ _ _ _ (labelSlice_length _ _ _)).trans rfl
  · exact (rowEdr_mkRow labelKeys _ _ _ _ _ _ _ (labelSlice_length _ _ _)).trans rfl

theorem unmanagedRow_cells (e : ReplicateWkld) (labelKeys : List String)
    (w : Workload) :
    rowHost (unmanagedRow e labelKeys w) = w.hostname ∧
    rowEds labelKeys (unmanagedRow e labelKeys w) = ptrToStr w.externalDataSet ∧
    rowEdr labelKeys (unmanagedRow e labelKeys w) =
      ptrToStr w.externalDataReference := by
  unfold unmanagedRow
  exact ⟨mkRow_host _ _ _ _ _ _ _,
    rowEds_mkRow labelKeys _ _ _ _ _ _ _ (labelSlice_length _ _ _),
    rowEdr_mkRow labelKeys _ _ _ _ _ _ _ (labelSlice_length _ _ _)⟩

theorem run1_dataRows_char (pces : List PCE) (skip labelKeys : List String) :
    ∀ r ∈ (runReconcileT pces skip labelKeys).importCsv.drop 1,
      (∃ src ∈ pces, skip.contains src.friendlyName = false ∧
        ∃ wm ∈ src.workloadsSlice, wm.getMode ≠ "unmanaged" ∧
          r = managedRow src labelKeys wm) ∨
      (∃ src ∈ pces, skip.contains src.friendlyName = false ∧
        ∃ wu ∈ src.workloadsSlice, wu.getMode = "unmanaged" ∧
          ((ptrToStr wu.externalDataSet ≠ "wkld-replicate" ∧
            r = unmanagedRow ⟨src, wu⟩ labelKeys (claimStamp ⟨src, wu⟩)) ∨
           (ptrToStr wu.externalDataSet = "wkld-replicate" ∧
            src.fqdn = goSplitHead (ptrToStr wu.externalDataReference) usep ∧
            r = unmanagedRow ⟨src, wu⟩ labelKeys wu))) := by
  intro r hr
  obtain ⟨ext, heq, hchar⟩ := runReconcileT_importCsv_shape pces skip labelKeys
  rw [heq] at hr
  simp only [List.drop_succ_cons, List.drop_zero] at hr
  rcases List.mem_append.mp hr with hr' | hr'
  · obtain ⟨p, hp, hps, w, hw, hmode, hreq⟩ :=
      collectAllT_importRows_mem pces skip labelKeys r hr'
    exact Or.inl ⟨p, hp, hps, w, hw, hmode, hreq⟩
  · obtain ⟨e, he, hpe⟩ := hchar r hr'
    obtain ⟨kv, hkv, hsnd⟩ := List.mem_map.mp he
    obtain ⟨src, hsrc, hss, wu, hwu, hmode, hkveq⟩ :=
      collectAllT_unmanaged_mem pces skip labelKeys kv hkv
    have hesrc : e = ⟨src, wu⟩ := by rw [← hsnd, hkveq]
    subst hesrc
    rcases processUnmanaged_upsert_char _ _ _ _ _ hpe with ⟨hne, hrow⟩ | ⟨heds, hsplit, hrow⟩
    · exact Or.inr ⟨src, hsrc, hss, wu, hwu, hmode, Or.inl ⟨hne, hrow⟩⟩
    · exact Or.inr ⟨src, hsrc, hss, wu, hwu, hmode, Or.inr ⟨heds, hsplit, hrow⟩⟩

theorem postRunState_mem (labelKeys : List String)
    (freshHref : String → String → String) (out : RunOutput) (pces : List PCE)
    (p2 : PCE)
    (hmapE : ∀ k, ((out.deleteHrefMap.lookup k).getD []) = [])
    (hp2 : p2 ∈ postRunState labelKeys freshHref out pces) :
    ∃ p ∈ pces, p2 = applyImport labelKeys freshHref (out.importCsv.drop 1) p ∧
      p2.fqdn = p.fqdn ∧ p2.friendlyName = p.friendlyName := by
  obtain ⟨p, hp, heq⟩ := List.mem_map.mp hp2
  rw [applyDeletes_empty out.deleteHrefMap _ (hmapE _)] at heq
  obtain ⟨hf, hn⟩ := applyImport_fqdn labelKeys freshHref (out.importCsv.drop 1) p
  exact ⟨p, hp, heq.symm, by rw [← heq]; exact hf, by rw [← heq]; exact hn⟩

theorem post_managed_complete (pces : List PCE) (skip labelKeys : List String)
    (freshHref : String → String → String) (out : RunOutput)
    (hmapE : ∀ k, ((out.deleteHrefMap.lookup k).getD []) = [])
    (q : PCE) (wm : Workload) (hq : q ∈ pces)
    (hqs : skip.contains q.friendlyName = false)
    (hwm : wm ∈ q.workloadsSlice) (hmode : wm.getMode ≠ "unmanaged") :
    containsKey
      (collectAllT (postRunState labelKeys freshHref out pces) skip labelKeys).managed
      (q.fqdn ++ wm.hostname) = true := by
  have hq2mem : applyDeletes out.deleteHrefMap
      (applyImport labelKeys freshHref (out.importCsv.drop 1) q) ∈
      postRunState labelKeys freshHref out pces :=
    List.mem_map_of_mem _ hq
  rw [applyDeletes_empty out.deleteHrefMap _ (hmapE _)] at hq2mem
  obtain ⟨wm', hwm', hh, hm⟩ :=
    applyImport_preserve labelKeys freshHref (out.importCsv.drop 1) q wm hwm
  obtain ⟨hf, hn⟩ := applyImport_fqdn labelKeys freshHref (out.importCsv.drop 1) q
  have hskip2 : skip.contains
      (applyImport labelKeys freshHref (out.importCsv.drop 1) q).friendlyName = false := by
    rw [hn]; exact hqs
  have hgm : wm'.getMode = wm.getMode := hm
  have hmode' : wm'.getMode ≠ "unmanaged" := by rw [hgm]; exact hmode
  have hmain := containsKey_collectAllT_managed_complete
    (postRunState labelKeys freshHref out pces) skip labelKeys _ wm'
    hq2mem hskip2 hwm' hmode'
  rw [hf, hh] at hmain
  exact hmain

theorem post_unmanaged_complete (pces : List PCE) (skip labelKeys : List String)
    (freshHref : String → String → String) (out : RunOutput)
    (hmapE : ∀ k, ((out.deleteHrefMap.lookup k).getD []) = [])
    (q : PCE) (wu : Workload) (hq : q ∈ pces)
    (hqs : skip.contains q.friendlyName = false)
    (hwu : wu ∈ q.workloadsSlice) (hmode : wu.getMode = "unmanaged") :
    containsKey
      (collectAllT (postRunState labelKeys freshHref out pces) skip labelKeys).unmanaged
      (q.fqdn ++ wu.hostname) = true := by
  have hq2mem : applyDeletes out.deleteHrefMap
      (applyImport labelKeys freshHref (out.importCsv.drop 1) q) ∈
      postRunState labelKeys freshHref out pces :=
    List.mem_map_of_mem _ hq
  rw [applyDeletes_empty out.deleteHrefMap _ (hmapE _)] at hq2mem
  obtain ⟨wu', hwu', hh, hm⟩ :=
    applyImport_preserve labelKeys freshHref (out.importCsv.drop 1) q wu hwu
  obtain ⟨hf, hn⟩ := applyImport_fqdn labelKeys freshHref (out.importCsv.drop 1) q
  have hskip2 : skip.contains
      (applyImport labelKeys freshHref (out.importCsv.drop 1) q).friendlyName = false := by
    rw [hn]; exact hqs
  have hgm : wu'.getMode = wu.getMode := hm
  have hmode' : wu'.getMode = "unmanaged" := by rw [hgm]; exact hmode
  have hmain := containsKey_collectAllT_unmanaged_complete
    (postRunState labelKeys freshHref out pces) skip labelKeys _ wu'
    hq2mem hskip2 hwu' hmode'
  rw [hf, hh] at hmain
  exact hmain

theorem run2_entry_not_delete (pces : List PCE) (skip labelKeys : List String)
    (freshHref : String → String → String)
    (hwf3 : ∀ p ∈ pces, ∀ w ∈ p.workloadsSlice,
      goSplitHead (p.fqdn ++ msep ++ w.href) msep = p.fqdn ∧
      goContains (p.fqdn ++ msep ++ w.href) msep = true ∧
      goContains (p.fqdn ++ usep ++ w.href) msep = false ∧
      goSplitHead (p.fqdn ++ usep ++ w.href) usep = p.fqdn ∧
      goContains (p.fqdn ++ usep ++ w.href) usep = true)
    (hwf4 : ∀ p ∈ pces, skip.contains p.friendlyName = false →
      ∀ w ∈ p.workloadsSlice, w.getMode = "unmanaged" →
      ptrToStr w.externalDataSet = "wkld-replicate" →
      p.fqdn = goSplitHead (ptrToStr w.externalDataReference) usep →
      goContains (ptrToStr w.externalDataReference) msep = false)
    (h5 : ∀ p ∈ pces, skip.contains p.friendlyName = false →
      ∀ w ∈ p.workloadsSlice, w.getMode = "unmanaged" →
      (processUnmanaged (collectAllT pces skip labelKeys).managed
        (collectAllT pces skip labelKeys).unmanaged labelKeys ⟨p, w⟩).isDelete = false) :
    ∀ e2 ∈ (collectAllT
        (postRunState labelKeys freshHref (runReconcileT pces skip labelKeys) pces)
        skip labelKeys).unmanaged.map Prod.snd,
      (processUnmanaged
        (collectAllT
          (postRunState labelKeys freshHref (runReconcileT pces skip labelKeys) pces)
          skip labelKeys).managed
        (collectAllT
          (postRunState labelKeys freshHref (runReconcileT pces skip labelKeys) pces)
          skip labelKeys).unmanaged
        labelKeys e2).isDelete = false := by
  have hmapE := (runReconcileT_no_deletes pces skip labelKeys
    (h5_entries pces skip labelKeys h5)).2
  intro e2 he2
  obtain ⟨kv, hkv, hsnd⟩ := List.mem_map.mp he2
  obtain ⟨p2, hp2, hp2s, w, hw, hwmode, hkveq⟩ :=
    collectAllT_unmanaged_mem _ skip labelKeys kv hkv
  have he2eq : e2 = ⟨p2, w⟩ := by rw [← hsnd, hkveq]
  rw [he2eq]
  obtain ⟨p, hp, hp2eq, hfq, hfn⟩ := postRunState_mem labelKeys freshHref _ pces p2
    hmapE hp2
  have hps : skip.contains p.friendlyName = false := by rw [← hfn]; exact hp2s
  have hwslice : w ∈ (applyImport labelKeys freshHref
      ((runReconcileT pces skip labelKeys).importCsv.drop 1) p).workloadsSlice := by
    rw [← hp2eq]; exact hw
  by_cases hDel : (processUnmanaged
      (collectAllT
        (postRunState labelKeys freshHref (runReconcileT pces skip labelKeys) pces)
        skip labelKeys).managed
      (collectAllT
        (postRunState labelKeys freshHref (runReconcileT pces skip labelKeys) pces)
        skip labelKeys).unmanaged
      labelKeys ⟨p2, w⟩).isDelete = true
  case neg => simp only [Bool.not_eq_true] at hDel; exact hDel
  exfalso
  rw [processUnmanaged_isDelete_iff2] at hDel
  obtain ⟨hg1, hg2, hcase⟩ := hDel
  rcases applyImport_mem_char labelKeys freshHref _ p w hwslice with
    ⟨w0, hw0, hh, hmo, hds, hdr⟩ | ⟨r, hrmem, hrh, hrds, hrdr⟩
  · -- the provenance is the untouched one of an original workload
    have hw0mode : w0.getMode = "unmanaged" := by
      have hmo' : w.getMode = w0.getMode := hmo
      rw [← hmo']; exact hwmode
    have hnd := h5 p hp hps w0 hw0 hw0mode
    have hdr' : ptrToStr w.externalDataReference = ptrToStr w0.externalDataReference :=
      congrArg ptrToStr hdr
    have hds' : ptrToStr w.externalDataSet = ptrToStr w0.externalDataSet :=
      congrArg ptrToStr hds
    have hnd' : ¬ (processUnmanaged (collectAllT pces skip labelKeys).managed
        (collectAllT pces skip labelKeys).unmanaged labelKeys ⟨p, w0⟩).isDelete = true := by
      rw [hnd]; simp
    rw [processUnmanaged_isDelete_iff2] at hnd'
    apply hnd'
    refine ⟨by rw [← hds']; exact hg1, by rw [← hdr', ← hfq]; exact hg2, ?_⟩
    rcases hcase with ⟨hc1, hc2⟩ | ⟨hc1, hc2, hc3⟩
    · by_cases hk1 : containsKey (collectAllT pces skip labelKeys).managed
          (goSplitHead (ptrToStr w0.externalDataReference) msep ++ w0.hostname) = true
      · exfalso
        obtain ⟨kv', hkv', hk1eq⟩ := (containsKey_iff _ _).mp hk1
        obtain ⟨q, hq, hqs, wm, hwm, hwmmode, hkv'eq⟩ :=
          collectAllT_managed_mem pces skip labelKeys kv' hkv'
        rw [hkv'eq] at hk1eq
        have hkey : q.fqdn ++ wm.hostname =
            goSplitHead (ptrToStr w0.externalDataReference) msep ++ w0.hostname := by
          simpa using hk1eq
        have hm2 := post_managed_complete pces skip labelKeys freshHref _ hmapE
          q wm hq hqs hwm hwmmode
        rw [hkey] at hm2
        rw [hdr', hh] at hc2
        rw [hm2] at hc2
        simp at hc2
      · left
        refine ⟨by rw [← hdr']; exact hc1, by simpa using hk1⟩
    · by_cases hk1 : containsKey (collectAllT pces skip labelKeys).unmanaged
          (goSplitHead (ptrToStr w0.externalDataReference) usep ++ w0.hostname) = true
      · exfalso
        obtain ⟨kv', hkv', hk1eq⟩ := (containsKey_iff _ _).mp hk1
        obtain ⟨q, hq, hqs, wu, hwu, hwumode, hkv'eq⟩ :=
          collectAllT_unmanaged_mem pces skip labelKeys kv' hkv'
        rw [hkv'eq] at hk1eq
        have hkey : q.fqdn ++ wu.hostname =
            goSplitHead (ptrToStr w0.externalDataReference) usep ++ w0.hostname := by
          simpa using hk1eq
        have hu2 := post_unmanaged_complete pces skip labelKeys freshHref _ hmapE
          q wu hq hqs hwu hwumode
        rw [hkey] at hu2
        rw [hdr', hh] at hc3
        rw [hu2] at hc3
        simp at hc3
      · right
        refine ⟨by rw [← hdr']; exact hc1, by rw [← hdr']; exact hc2,
          by simpa using hk1⟩
  · -- the provenance was stamped by a row of the first run
    have hr3 := run1_dataRows_char pces skip labelKeys r hrmem
    have hedsW : ptrToStr w.externalDataSet = rowEds labelKeys r := by
      rw [hrds]; rfl
    have hedrW : ptrToStr w.externalDataReference = rowEdr labelKeys r := by
      rw [hrdr]; rfl
    rcases hr3 with ⟨src, hsrc, hss, wm, hwm, hwmmode, hreq⟩ |
      ⟨src, hsrc, hss, wu, hwu, hwumode, hsub⟩
    · subst hreq
      obtain ⟨hch, hce, hcr⟩ := managedRow_cells src labelKeys wm
      have hwh : w.hostname = wm.hostname := by rw [← hrh, hch]
      rw [hcr] at hedrW
      obtain ⟨hsp1, hco1, hco2, hsp2, hco3⟩ := hwf3 src hsrc wm hwm
      rcases hcase with ⟨hc1, hc2⟩ | ⟨hc1, hc2, hc3⟩
      · rw [hedrW, hsp1, hwh] at hc2
        have hm2 := post_managed_complete pces skip labelKeys freshHref _ hmapE
          src wm hsrc hss hwm hwmmode
        rw [hm2] at hc2
        simp at hc2
      · rw [hedrW, hco1] at hc1
        simp at hc1
    · rcases hsub with ⟨hne, hreq⟩ | ⟨heds, hsplit, hreq⟩
      · subst hreq
        obtain ⟨hch, hce, hcr⟩ :=
          unmanagedRow_cells ⟨src, wu⟩ labelKeys (claimStamp ⟨src, wu⟩)
        have hch' : rowHost (unmanagedRow ⟨src, wu⟩ labelKeys (claimStamp ⟨src, wu⟩)) =
            wu.hostname := hch
        have hcr' : rowEdr labelKeys
            (unmanagedRow ⟨src, wu⟩ labelKeys (claimStamp ⟨src, wu⟩)) =
            src.fqdn ++ usep ++ wu.href := hcr
        have hwh : w.hostname = wu.hostname := by rw [← hrh, hch']
        rw [hcr'] at hedrW
        obtain ⟨hsp1, hco1, hco2, hsp2, hco3⟩ := hwf3 src hsrc wu hwu
        rcases hcase with ⟨hc1, hc2⟩ | ⟨hc1, hc2, hc3⟩
        · rw [hedrW, hco2] at hc1
          simp at hc1
        · rw [hedrW, hsp2, hwh] at hc3
          have hu2 := post_unmanaged_complete pces skip labelKeys freshHref _ hmapE
            src wu hsrc hss hwu hwumode
          rw [hu2] at hc3
          simp at hc3
      · subst hreq
        obtain ⟨hch, hce, hcr⟩ := unmanagedRow_cells ⟨src, wu⟩ labelKeys wu
        have hwh : w.hostname = wu.hostname := by rw [← hrh, hch]
        rw [hcr] at hedrW
        have hmf := hwf4 src hsrc hss wu hwu hwumode heds hsplit
        rcases hcase with ⟨hc1, hc2⟩ | ⟨hc1, hc2, hc3⟩
        · rw [hedrW, hmf] at hc1
          simp at hc1
        · rw [hedrW, ← hsplit, hwh] at hc3
          have hu2 := post_unmanaged_complete pces skip labelKeys freshHref _ hmapE
            src wu hsrc hss hwu hwumode
          rw [hu2] at hc3
          simp at hc3

/-- C2 amended: running the reconciler a second time on the state produced by
a first run — every instance receiving the upsert batch under
hostname-matched import with the stamped provenance, then the (empty) delete
batch — yields zero delete actions, provided the first run schedules no
delete for any collected unmanaged workload, the instance addresses and hrefs
compose unambiguously with the provenance delimiters, and no already-stamped
self-owned reference contains the managed delimiter. Without the no-deletes
proviso the statement fails (see the counterexample: a deleted stale proxy
cascades a delete into the second run). -/
theorem c2_amended_second_run_no_deletes (pces : List PCE)
    (skip labelKeys : List String) (freshHref : String → String → String)
    (out out2 : RunOutput)
    (hwf3 : ∀ p ∈ pces, ∀ w ∈ p.workloadsSlice,
      goSplitHead (p.fqdn ++ msep ++ w.href) msep = p.fqdn ∧
      goContains (p.fqdn ++ msep ++ w.href) msep = true ∧
      goContains (p.fqdn ++ usep ++ w.href) msep = false ∧
      goSplitHead (p.fqdn ++ usep ++ w.href) usep = p.fqdn ∧
      goContains (p.fqdn ++ usep ++ w.href) usep = true)
    (hwf4 : ∀ p ∈ pces, skip.contains p.friendlyName = false →
      ∀ w ∈ p.workloadsSlice, w.getMode = "unmanaged" →
      ptrToStr w.externalDataSet = "wkld-replicate" →
      p.fqdn = goSplitHead (ptrToStr w.externalDataReference) usep →
      goContains (ptrToStr w.externalDataReference) msep = false)
    (h5 : ∀ p ∈ pces, skip.contains p.friendlyName = false →
      ∀ w ∈ p.workloadsSlice, w.getMode = "unmanaged" →
      (processUnmanaged (collectAllT pces skip labelKeys).managed
        (collectAllT pces skip labelKeys).unmanaged labelKeys ⟨p, w⟩).isDelete = false)
    (h1 : runReconcile pces skip labelKeys = .ok out)
    (h2 : runReconcile (postRunState labelKeys freshHref out pces) skip labelKeys =
      .ok out2) :
    out2.deleteCsv = [deleteHeader] ∧
    ∀ k, ((out2.deleteHrefMap.lookup k).getD []) = [] := by
  have hout := runReconcile_ok _ _ _ _ h1
  subst hout
  have hout2 := runReconcile_ok _ _ _ _ h2
  subst hout2
  exact runReconcileT_no_deletes _ skip labelKeys
    (run2_entry_not_delete pces skip labelKeys freshHref hwf3 hwf4 h5)

/-- Witness for C2 amended at a concrete input: instances C (one managed, one
organic unmanaged workload) and D (empty); the first run schedules two
upserts and no delete, and the second run over the produced state schedules
no delete. -/
theorem c2_amended_witness :
    (∀ p ∈ [pceC, pceD], ∀ w ∈ p.workloadsSlice,
      goSplitHead (p.fqdn ++ msep ++ w.href) msep = p.fqdn ∧
      goContains (p.fqdn ++ msep ++ w.href) msep = true ∧
      goContains (p.fqdn ++ usep ++ w.href) msep = false ∧
      goSplitHead (p.fqdn ++ usep ++ w.href) usep = p.fqdn ∧
      goContains (p.fqdn ++ usep ++ w.href) usep = true) ∧
    (runReconcileT [pceC, pceD] [] keys4).importCsv.length = 3 ∧
    (runReconcileT
      (postRunState keys4 freshEx (runReconcileT [pceC, pceD] [] keys4) [pceC, pceD])
      [] keys4).deleteCsv = [deleteHeader] := by
  refine ⟨by decide, rfl, ?_⟩
  exact (c2_amended_second_run_no_deletes [pceC, pceD] [] keys4 freshEx
    (runReconcileT [pceC, pceD] [] keys4)
    (runReconcileT
      (postRunState keys4 freshEx (runReconcileT [pceC, pceD] [] keys4) [pceC, pceD])
      [] keys4)
    (by decide) (by decide) (by decide) rfl rfl).1

end WkldRep
